import Mathlib

/-!
Verification of the ADP paystub extractor's text-to-record parser
(src/adp_extractor.py) against its natural-language specification.

Python strings are embedded as List Char; Python dicts (records and the
per-section field maps) as association lists with insert-or-update
semantics, which preserves Python's key insertion order. All definitions
are translated from the source; definitions that model constructs the
spec describes but the repository does not implement (the decimal
rendering of a test integer, CPython float parsing and printing) say so
in their doc comments. All recursion is structural so that concrete
inputs evaluate by kernel reduction.
-/

namespace AdpExtract

abbrev PyStr := List Char

/-- ASCII decimal digit, the characters Python's regex class d matches here. -/
def isDigitChar (c : Char) : Bool := 48 ≤ c.toNat && c.toNat ≤ 57

/-- Python str whitespace (space, tab, newline, return, vertical tab, form feed). -/
def isWSChar (c : Char) : Bool :=
  c == ' ' || c == '\t' || c == '\n' || c == '\x0d' || c == '\x0b' || c == '\x0c'

/-- ASCII letter, the regex class A-Za-z. -/
def isAlphaChar (c : Char) : Bool :=
  (65 ≤ c.toNat && c.toNat ≤ 90) || (97 ≤ c.toNat && c.toNat ≤ 122)

/-- Python str.lower for ASCII. -/
def lowerChar (c : Char) : Char :=
  if 65 ≤ c.toNat && c.toNat ≤ 90 then Char.ofNat (c.toNat + 32) else c

def lowerStr (s : PyStr) : PyStr := s.map lowerChar

/-- Python str.strip(): whitespace removed from both ends. -/
def pyStrip (s : PyStr) : PyStr :=
  ((s.dropWhile isWSChar).reverse.dropWhile isWSChar).reverse

/-- Python str.rstrip applied with a newline argument. -/
def rstripNl (s : PyStr) : PyStr :=
  (s.reverse.dropWhile (fun c => c == '\n')).reverse

def pySplitAux : PyStr → PyStr → List PyStr
  | [], cur => if cur.isEmpty then [] else [cur.reverse]
  | c :: cs, cur =>
    if isWSChar c then
      if cur.isEmpty then pySplitAux cs [] else cur.reverse :: pySplitAux cs []
    else pySplitAux cs (c :: cur)

/-- Python str.split() with no separator: split on whitespace runs, no empties. -/
def pySplit (s : PyStr) : List PyStr := pySplitAux s []

def splitNlAux : PyStr → PyStr → List PyStr
  | [], cur => [cur.reverse]
  | c :: cs, cur =>
    if c == '\n' then cur.reverse :: splitNlAux cs [] else splitNlAux cs (c :: cur)

/-- Python text.split on a newline separator: every line, empties kept. -/
def splitNl (s : PyStr) : List PyStr := splitNlAux s []

/-- Whether pat is a prefix of s (character-wise). -/
def leadsWith : PyStr → PyStr → Bool
  | [], _ => true
  | _ :: _, [] => false
  | p :: ps, c :: cs => p == c && leadsWith ps cs

/-- Python str.find: index of the first occurrence of pat in s, none when absent. -/
def findPos (pat : PyStr) : PyStr → Option Nat
  | [] => if pat.isEmpty then some 0 else none
  | c :: cs =>
    if leadsWith pat (c :: cs) then some 0
    else (findPos pat cs).map (fun n => n + 1)

/-- Python membership test pat in s. -/
def hasSub (pat s : PyStr) : Bool := (findPos pat s).isSome

/-- The text after the first occurrence of pat: Python s.split(pat, 1)[1]. -/
def afterFirst (pat : PyStr) : PyStr → Option PyStr
  | [] => if pat.isEmpty then some [] else none
  | c :: cs =>
    if leadsWith pat (c :: cs) then some ((c :: cs).drop pat.length)
    else afterFirst pat cs

/-- Tokens joined with single spaces: Python ' '.join. -/
def joinToks : List PyStr → PyStr
  | [] => []
  | [t] => t
  | t :: ts => t ++ ' ' :: joinToks ts

/-- Python str.endswith(suf). -/
def endsWithSuf (suf s : PyStr) : Bool := leadsWith suf.reverse s.reverse

/-! ## Python dict as an association list -/

abbrev Record := List (PyStr × PyStr)

def dictFind (r : Record) (k : PyStr) : Option PyStr :=
  match r with
  | [] => none
  | (k', v) :: t => if k' == k then some v else dictFind t k

def dictGetD (r : Record) (k : PyStr) (d : PyStr) : PyStr := (dictFind r k).getD d

def dictHasKey (r : Record) (k : PyStr) : Bool := (dictFind r k).isSome

/-- Python dict assignment: update an existing key in place, else append. -/
def dictSet (r : Record) (k : PyStr) (v : PyStr) : Record :=
  match r with
  | [] => [(k, v)]
  | (k', v') :: t => if k' == k then (k, v) :: t else (k', v') :: dictSet t k v

/-- Python truthiness of an optional string: None and the empty string are falsy. -/
def truthyOpt (o : Option PyStr) : Bool :=
  match o with
  | none => false
  | some s => !s.isEmpty

/-! ## Amount cleaning and the amount shapes (clean_amount, the four regexes) -/

/-- The characters clean_amount keeps: everything but space, comma and asterisk. -/
def keepCh (c : Char) : Bool := !(c == ' ' || c == ',' || c == '*')

/-- Source clean_amount: strip spaces, commas and asterisks, then insert a
decimal point before the last two digits of an all-digit body, keeping an
optional leading minus sign. -/
def clean_amount (s : PyStr) : PyStr :=
  let c1 := s.filter keepCh
  let c2 := rstripNl (pyStrip c1)
  if c2.isEmpty then []
  else
    let neg := c2.head? == some '-'
    let core := if neg then c2.tail else c2
    let core2 :=
      if !core.isEmpty && 2 ≤ core.length && core.all isDigitChar then
        core.take (core.length - 2) ++ '.' :: core.drop (core.length - 2)
      else core
    if neg then '-' :: core2 else core2

def allDigits (t : PyStr) : Bool := t.all isDigitChar

/-- The token once an optional leading minus sign is removed. -/
def stripMinus (t : PyStr) : PyStr := if t.head? == some '-' then t.tail else t

/-- A run of lo to hi digits. -/
def digitRun (lo hi : Nat) (t : PyStr) : Bool :=
  lo ≤ t.length && t.length ≤ hi && allDigits t

/-- An optionally minus-signed run of lo to hi digits. -/
def signedRun (lo hi : Nat) (t : PyStr) : Bool := digitRun lo hi (stripMinus t)

/-- Exactly two digits with an optional trailing asterisk. -/
def centsTok : PyStr → Bool
  | [a, b] => isDigitChar a && isDigitChar b
  | [a, b, c] => isDigitChar a && isDigitChar b && c == '*'
  | _ => false

/-- Token decomposition of the source regex on a 4-token join. -/
def shape4 (t1 t2 t3 t4 : PyStr) : Bool :=
  signedRun 1 4 t1 && digitRun 3 3 t2 && digitRun 3 3 t3 && centsTok t4

/-- Token decomposition of the source regex on a 3-token join. -/
def shape3 (t1 t2 t3 : PyStr) : Bool :=
  signedRun 1 4 t1 && digitRun 3 3 t2 && centsTok t3

/-- Token decomposition of the source regex on a 2-token join. -/
def shape2 (t1 t2 : PyStr) : Bool := signedRun 1 4 t1 && centsTok t2

/-- Token decomposition of the source single-token regex. -/
def shape1 (t : PyStr) : Bool := centsTok (stripMinus t)

/-- One attempt of the four shapes at a fixed position, longest first, with
the source's remaining-token guards: the body of try_extract_at, returning
the amount, the tokens consumed and the remaining tokens. -/
def tryShapes : List PyStr → Option (PyStr × Nat × List PyStr)
  | t1 :: t2 :: t3 :: t4 :: rest =>
    if shape4 t1 t2 t3 t4 then some (clean_amount (joinToks [t1, t2, t3, t4]), 4, rest)
    else if shape3 t1 t2 t3 then some (clean_amount (joinToks [t1, t2, t3]), 3, t4 :: rest)
    else if shape2 t1 t2 then some (clean_amount (joinToks [t1, t2]), 2, t3 :: t4 :: rest)
    else if shape1 t1 then some (clean_amount t1, 1, t2 :: t3 :: t4 :: rest)
    else none
  | [t1, t2, t3] =>
    if shape3 t1 t2 t3 then some (clean_amount (joinToks [t1, t2, t3]), 3, [])
    else if shape2 t1 t2 then some (clean_amount (joinToks [t1, t2]), 2, [t3])
    else if shape1 t1 then some (clean_amount t1, 1, [t2, t3])
    else none
  | [t1, t2] =>
    if shape2 t1 t2 then some (clean_amount (joinToks [t1, t2]), 2, [])
    else if shape1 t1 then some (clean_amount t1, 1, [t2])
    else none
  | [t1] => if shape1 t1 then some (clean_amount t1, 1, []) else none
  | [] => none

/-- The scanning loop of extract_amounts_from_line: advance over tokens until
some shape matches; the Nat is the end index of the consumed run. -/
def scanFirst : List PyStr → Option (PyStr × Nat × List PyStr)
  | [] => none
  | t :: rest =>
    match tryShapes (t :: rest) with
    | some r => some r
    | none =>
      match scanFirst rest with
      | some (a, k, rem) => some (a, k + 1, rem)
      | none => none

/-- Token-level body of extract_amounts_from_line: the first amount found by
the scan, and a second amount tried exactly at the position after it. -/
def extractAmountsTok (toks : List PyStr) : Option PyStr × Option PyStr :=
  match scanFirst toks with
  | none => (none, none)
  | some (a, _, rem) => (some a, (tryShapes rem).map (fun r => r.1))

/-- The shared preamble: the line after the description (when the description
is non-empty and present), stripped. -/
def descRemainder (line desc : PyStr) : PyStr :=
  if !desc.isEmpty && hasSub desc line then pyStrip ((afterFirst desc line).getD [])
  else pyStrip line

/-- Source extract_amounts_from_line: the (this period, YTD) pair. -/
def extract_amounts_from_line (line desc : PyStr) : Option PyStr × Option PyStr :=
  extractAmountsTok (pySplit (descRemainder line desc))

/-- Token-level body of extract_first_amount_from_line: only the 3-, 2- and
1-token shapes are attempted, in that order, with the source's length guards. -/
def extractFirstTok : List PyStr → Option PyStr
  | t1 :: t2 :: t3 :: _ =>
    if shape3 t1 t2 t3 then some (clean_amount (joinToks [t1, t2, t3]))
    else if shape2 t1 t2 then some (clean_amount (joinToks [t1, t2]))
    else if shape1 t1 then some (clean_amount t1)
    else none
  | [t1, t2] =>
    if shape2 t1 t2 then some (clean_amount (joinToks [t1, t2]))
    else if shape1 t1 then some (clean_amount t1)
    else none
  | [t1] => if shape1 t1 then some (clean_amount t1) else none
  | [] => none

/-- Source extract_first_amount_from_line. -/
def extract_first_amount_from_line (line desc : PyStr) : Option PyStr :=
  extractFirstTok (pySplit (descRemainder line desc))

/-! ## Earnings section (parse_earnings_section) -/

/-- Start marker of the earnings section: the line holds rate, hours and
this period, case-insensitively. -/
def earnStartLine (line : PyStr) : Bool :=
  hasSub ("rate").toList (lowerStr line) && hasSub ("hours").toList (lowerStr line) &&
    hasSub ("this period").toList (lowerStr line)

/-- End marker of the earnings section. -/
def earnEndLine (line : PyStr) : Bool :=
  hasSub ("Gross Pay").toList line || hasSub ("Federal Income Tax").toList line ||
    hasSub ("Deductions").toList line || hasSub ("Net Check").toList line

/-- The leading label: the longest leading run of letters and spaces, trimmed;
none when the line does not start with such a character. -/
def earnDescOf (line : PyStr) : Option PyStr :=
  let lead := line.takeWhile (fun c => isAlphaChar c || isWSChar c)
  if lead.isEmpty then none else some (pyStrip lead)

/-- The earnings amount-collection loop: at each position try the four shapes
longest first; a matched amount resets the non-number counter; two
consecutive unmatched tokens end the collection. -/
def collectAmounts : List PyStr → Nat → List PyStr
  | t1 :: t2 :: t3 :: t4 :: rest, cnn =>
    if shape4 t1 t2 t3 t4 then
      clean_amount (joinToks [t1, t2, t3, t4]) :: collectAmounts rest 0
    else if shape3 t1 t2 t3 then
      clean_amount (joinToks [t1, t2, t3]) :: collectAmounts (t4 :: rest) 0
    else if shape2 t1 t2 then
      clean_amount (joinToks [t1, t2]) :: collectAmounts (t3 :: t4 :: rest) 0
    else if shape1 t1 then
      clean_amount t1 :: collectAmounts (t2 :: t3 :: t4 :: rest) 0
    else if 2 ≤ cnn + 1 then []
    else collectAmounts (t2 :: t3 :: t4 :: rest) (cnn + 1)
  | [t1, t2, t3], cnn =>
    if shape3 t1 t2 t3 then [clean_amount (joinToks [t1, t2, t3])]
    else if shape2 t1 t2 then
      clean_amount (joinToks [t1, t2]) :: collectAmounts [t3] 0
    else if shape1 t1 then
      clean_amount t1 :: collectAmounts [t2, t3] 0
    else if 2 ≤ cnn + 1 then []
    else collectAmounts [t2, t3] (cnn + 1)
  | [t1, t2], cnn =>
    if shape2 t1 t2 then [clean_amount (joinToks [t1, t2])]
    else if shape1 t1 then clean_amount t1 :: collectAmounts [t2] 0
    else if 2 ≤ cnn + 1 then []
    else collectAmounts [t2] (cnn + 1)
  | [t1], _ => if shape1 t1 then [clean_amount t1] else []
  | [], _ => []

/-- The amounts an earnings line yields for a given description. -/
def earnAmountsOf (line desc : PyStr) : List PyStr :=
  collectAmounts (pySplit (descRemainder line desc)) 0

/-- Field assignment by amount count, in the source's branch order
(at least 4, exactly 2, exactly 1, exactly 3). -/
def earnDispatch (d : Record) (desc : PyStr) (amounts : List PyStr) : Record :=
  let ek := ("Earnings ").toList ++ desc
  let eyk := ek ++ (" YTD").toList
  if 4 ≤ amounts.length then
    dictSet (dictSet d ek (amounts.getD 2 [])) eyk (amounts.getD 3 [])
  else if amounts.length == 2 then
    dictSet (dictSet d ek (amounts.getD 0 [])) eyk (amounts.getD 1 [])
  else if amounts.length == 1 then dictSet d eyk (amounts.getD 0 [])
  else if amounts.length == 3 then
    dictSet (dictSet d ek (amounts.getD 1 [])) eyk (amounts.getD 2 [])
  else d

/-- One in-section earnings line: find the label, skip Net Pay and Net Check,
collect the amounts, dispatch by count. -/
def earnProcessLine (d : Record) (line : PyStr) : Record :=
  match earnDescOf line with
  | none => d
  | some desc =>
    if desc == ("Net Pay").toList || desc == ("Net Check").toList then d
    else earnDispatch d desc (earnAmountsOf line desc)

/-- The earnings line loop with its in-section flag; the end marker breaks out. -/
def parseEarnLines : Bool → List PyStr → Record → Record
  | _, [], d => d
  | inE, l :: ls, d =>
    if earnStartLine l then parseEarnLines true ls d
    else if inE && earnEndLine l then d
    else if inE && !(pyStrip l).isEmpty then parseEarnLines inE ls (earnProcessLine d l)
    else parseEarnLines inE ls d

/-- Source parse_earnings_section. -/
def parse_earnings_section (text : PyStr) : Record :=
  parseEarnLines false (splitNl text) []

/-! ## Deductions section (parse_deductions_section) -/

/-- The source's ordered label list (its comment says more specific names
must come before general ones). -/
def deduction_names : List PyStr :=
  [("Federal Income Tax").toList, ("Social Security Tax").toList,
   ("Medicare Tax").toList, ("Medicare Surtax").toList,
   ("GA State Income Tax").toList, ("Rsu Net Value").toList,
   ("Basic Life Inc").toList, ("Accident").toList,
   ("Ad&D Spouse").toList, ("Ad&D").toList, ("After-Tax Ded").toList,
   ("Crit Ill Spouse").toList, ("Critical Illnes").toList,
   ("Dental Pretax").toList, ("Ee Life").toList, ("Espp").toList,
   ("Hsa").toList, ("Legal").toList, ("Medical Pretax").toList,
   ("Non Ca Std").toList, ("Roth 401K").toList, ("Spouse Life").toList,
   ("Vision Pretax").toList]

/-- The benefit-style deductions that may be YTD-only. -/
def benefit_ytd_names : List PyStr :=
  [("Basic Life Inc").toList, ("Accident").toList, ("Ad&D").toList,
   ("Ad&D Spouse").toList, ("After-Tax Ded").toList,
   ("Crit Ill Spouse").toList, ("Critical Illnes").toList,
   ("Dental Pretax").toList, ("Ee Life").toList, ("Hsa").toList,
   ("Legal").toList, ("Medical Pretax").toList, ("Non Ca Std").toList,
   ("Roth 401K").toList, ("Spouse Life").toList, ("Vision Pretax").toList]

/-- The labels whose single value is always YTD. -/
def always_ytd_names : List PyStr := [("Rsu Net Value").toList]

/-- Python regex match of one-or-more whitespace, one-or-more digits, then a
slash, anchored at the start. -/
def matchWsDigitsSlash : PyStr → Bool
  | c :: cs =>
    isWSChar c &&
      (let r := cs.dropWhile isWSChar
       let d := r.takeWhile isDigitChar
       !d.isEmpty && (r.drop d.length).head? == some '/')
  | [] => false

/-- Python regex match of whitespace, digits, whitespace, digits, anchored at
the start. -/
def matchWsNumsNums : PyStr → Bool
  | c :: cs =>
    isWSChar c &&
      (let r := cs.dropWhile isWSChar
       let d := r.takeWhile isDigitChar
       !d.isEmpty &&
         (match r.drop d.length with
          | c2 :: cs2 =>
            isWSChar c2 &&
              (match cs2.dropWhile isWSChar with
               | d2 :: _ => isDigitChar d2
               | [] => false)
          | [] => false))
  | [] => false

/-- The source's three skip checks for an Espp occurrence at position pos:
an Espp Refund slice, a following date fragment, or two following positive
numeric groups. -/
def esppSkipAt (line : PyStr) (pos : Nat) : Bool :=
  ((line.drop pos).take 11 == ("Espp Refund").toList) ||
    (let t := (line.drop (pos + 4)).take 16
     matchWsDigitsSlash t || matchWsNumsNums t)

/-- Python string comparison, by code point. -/
def strLT : PyStr → PyStr → Bool
  | [], [] => false
  | [], _ :: _ => true
  | _ :: _, [] => false
  | a :: as_, b :: bs => a.toNat < b.toNat || (a == b && strLT as_ bs)

/-- Python tuple comparison on (position, name) pairs. -/
def pairLE (a b : Nat × PyStr) : Bool :=
  a.1 < b.1 || (a.1 == b.1 && (a.2 == b.2 || strLT a.2 b.2))

def insertPair (x : Nat × PyStr) : List (Nat × PyStr) → List (Nat × PyStr)
  | [] => [x]
  | y :: ys => if pairLE x y then x :: y :: ys else y :: insertPair x ys

/-- Ascending sort, as Python list.sort on (int, str) tuples. -/
def sortPairs : List (Nat × PyStr) → List (Nat × PyStr)
  | [] => []
  | x :: xs => insertPair x (sortPairs xs)

/-- The labels found on one line with their positions, Espp skips applied,
sorted by (position, name) as the source's matches.sort(). -/
def collectDedMatches (line : PyStr) : List (Nat × PyStr) :=
  sortPairs (deduction_names.filterMap (fun name =>
    match findPos name line with
    | none => none
    | some p =>
      if name == ("Espp").toList && esppSkipAt line p then none
      else some (p, name)))

def dkey (name : PyStr) : PyStr := ("Deductions ").toList ++ name
def dkeyY (name : PyStr) : PyStr := dkey name ++ (" YTD").toList

/-- The per-match body of the deductions loop: dedup, amount extraction, the
social-security, Rsu-net-value and benefit-YTD special cases, emission, and
the YTD-only latch update. The state is (deductions dict, latch). -/
def processDedMatch (line : PyStr) (st : Record × Bool) (pm : Nat × PyStr) :
    Record × Bool :=
  let ded := st.1
  let latch := st.2
  let name := pm.2
  if dictHasKey ded (dkey name) || dictHasKey ded (dkeyY name) then st
  else
    let tp0 := (extract_amounts_from_line line name).1
    let ytd0 := (extract_amounts_from_line line name).2
    let ss :=
      if name == ("Social Security Tax").toList && truthyOpt tp0 && !truthyOpt ytd0 &&
          !((tp0.getD []).head? == some '-') then
        ((none : Option PyStr), tp0)
      else (tp0, ytd0)
    let tp1 := ss.1
    let ytd1 := ss.2
    let fin :=
      if truthyOpt tp1 && !truthyOpt ytd1 && always_ytd_names.contains name then
        ((none : Option PyStr), tp1)
      else if truthyOpt tp1 && !truthyOpt ytd1 && benefit_ytd_names.contains name then
        if latch then ((none : Option PyStr), tp1)
        else if !dictHasKey ded (dkeyY name) then ((none : Option PyStr), tp1)
        else (tp1, ytd1)
      else (tp1, ytd1)
    let tp2 := fin.1
    let ytd2 := fin.2
    let ded2 := if truthyOpt tp2 then dictSet ded (dkey name) (tp2.getD []) else ded
    let ded3 := if truthyOpt ytd2 then dictSet ded2 (dkeyY name) (ytd2.getD []) else ded2
    let latch2 :=
      if benefit_ytd_names.contains name && truthyOpt ytd2 &&
          (dictGetD ded3 (dkey name) []).isEmpty then
        true
      else latch
    (ded3, latch2)

/-- One line of the deductions loop: the sentinel phrases set the YTD-only
latch, then every matched label is processed left to right. -/
def processDedLine (st : Record × Bool) (line : PyStr) : Record × Bool :=
  let latch := st.2 || hasSub ("Other Benefits and").toList line ||
    hasSub ("this period total to date").toList (lowerStr line)
  (collectDedMatches line).foldl (processDedMatch line) (st.1, latch)

/-- Source parse_deductions_section. -/
def parse_deductions_section (text : PyStr) : Record :=
  ((splitNl text).foldl processDedLine ([], false)).1

/-! ## Other Benefits section (parse_other_benefits_section) -/

/-- Glob matching with a one-character fuel margin: a literal character must
match itself and a star matches any run, as fnmatch does on the catalog's
patterns (which use no question mark and no character class). -/
def globAux : Nat → PyStr → PyStr → Bool
  | 0, _, _ => false
  | _ + 1, [], s => s.isEmpty
  | fuel + 1, '*' :: ps, s =>
    globAux fuel ps s ||
      (match s with
       | [] => false
       | _ :: cs => globAux fuel ('*' :: ps) cs)
  | fuel + 1, p :: ps, s =>
    match s with
    | [] => false
    | c :: cs => p == c && globAux fuel ps cs

def globMatch (pat s : PyStr) : Bool := globAux (pat.length + s.length + 1) pat s

def hasGlobChar (p : PyStr) : Bool := p.contains '*' || p.contains '?' || p.contains '['

/-- A word that starts with a minus sign whose remainder, minus signs
stripped from the left, is all digits. -/
def wordNeg (w : PyStr) : Bool :=
  (w.head? == some '-') &&
    (let c := (w.dropWhile (fun ch => ch == '-')).filter (fun ch => !(ch == ' '))
     !c.isEmpty && allDigits c)

/-- The Espp-specific rejection: a candidate whose part after the Espp prefix
holds no slash and no dash and is purely numeric. -/
def esppNumericSuffix (candidate : PyStr) : Bool :=
  if leadsWith ("Espp ").toList candidate then
    let suffix := candidate.drop 5
    !(suffix.contains '/') && !(suffix.contains '-') &&
      (let s2 := suffix.filter (fun c => !(c == ' '))
       !s2.isEmpty && allDigits s2)
  else false

/-- One glob candidate of k words at the front of ws, with the negative-word
and Espp-numeric rejections. -/
def globCandLen (pat : PyStr) (ws : List PyStr) (k : Nat) : Option PyStr :=
  if k ≤ ws.length then
    let cand := joinToks (ws.take k)
    if globMatch pat cand && !((ws.take k).any wordNeg) &&
        !(pat == ("Espp *").toList && esppNumericSuffix cand) then
      some cand
    else none
  else none

/-- Candidates of one to four words at one position, shortest first. -/
def globScanAt (pat : PyStr) (ws : List PyStr) : Option PyStr :=
  match globCandLen pat ws 1 with
  | some c => some c
  | none =>
    match globCandLen pat ws 2 with
    | some c => some c
    | none =>
      match globCandLen pat ws 3 with
      | some c => some c
      | none => globCandLen pat ws 4

/-- The scan over word positions, left to right. -/
def globScan (pat : PyStr) : List PyStr → Option PyStr
  | [] => none
  | w :: rest =>
    match globScanAt pat (w :: rest) with
    | some c => some c
    | none => globScan pat rest

/-- The source's benefit label catalog; Espp followed by a star is a glob. -/
def benefit_names : List PyStr :=
  [("Current Match").toList, ("Espp *").toList, ("Ytd 401K Match").toList,
   ("Sick Earned Bal").toList]

/-- The first catalog pattern that matches a line, and the matched name. -/
def benefitLineMatch (line : PyStr) : Option PyStr :=
  benefit_names.foldl
    (fun acc pat =>
      match acc with
      | some c => some c
      | none =>
        if hasGlobChar pat then globScan pat (pySplit line)
        else if hasSub pat line then some pat
        else none)
    none

/-- One line of the benefits loop: on a match, one amount is extracted from
the remainder and stored under the matched name. -/
def processBenefitLine (d : Record) (line : PyStr) : Record :=
  match benefitLineMatch line with
  | none => d
  | some name =>
    match extract_first_amount_from_line line name with
    | some a =>
      if !a.isEmpty then dictSet d (("Other Benefits ").toList ++ name) a else d
    | none => d

/-- Source parse_other_benefits_section. -/
def parse_other_benefits_section (text : PyStr) : Record :=
  (splitNl text).foldl processBenefitLine []

/-! ## Decimal rendering helpers shared by the validator model and the
rendering the specification describes -/

def digitChar : Nat → Char
  | 0 => '0' | 1 => '1' | 2 => '2' | 3 => '3' | 4 => '4'
  | 5 => '5' | 6 => '6' | 7 => '7' | 8 => '8' | _ => '9'

def natReprAux : Nat → Nat → PyStr
  | 0, _ => []
  | fuel + 1, n =>
    if n < 10 then [digitChar n] else natReprAux fuel (n / 10) ++ [digitChar (n % 10)]

/-- The decimal digits of a natural number, most significant first. -/
def natRepr (n : Nat) : PyStr := natReprAux (n + 1) n

/-! ## Year-to-date validator (validate_and_fix_ytd_values) -/

/-- An exact terminating decimal: the value is the integer numerator divided
by ten to the exponent. The decimal strings record values take are parsed
and printed exactly, so this models the source's float round trip on them. -/
abbrev Dec := Int × Nat

def pow10 : Nat → Nat
  | 0 => 1
  | k + 1 => 10 * pow10 k

/-- Value comparison of two decimals by cross multiplication. -/
def decLT (a b : Dec) : Bool := a.1 * (pow10 b.2 : Int) < b.1 * (pow10 a.2 : Int)

/-- Exact difference of two decimals. -/
def decSub (a b : Dec) : Dec :=
  (a.1 * (pow10 b.2 : Int) - b.1 * (pow10 a.2 : Int), a.2 + b.2)

/-- The numeric tolerance of the validator's monotonicity check. -/
def oneCent : Dec := (1, 2)

def digitsVal (ds : PyStr) : Nat := ds.foldl (fun a c => a * 10 + (c.toNat - 48)) 0

/-- Modelled from CPython float parsing restricted to plain decimal literals
(an optional sign, digits, an optional dot and fraction digits), the only
forms record values take; scientific notation, infinities and padding
whitespace are not modelled. The value is kept exact. -/
def parseDec (s : PyStr) : Option Dec :=
  let sgn : Bool × PyStr :=
    match s with
    | '-' :: r => (true, r)
    | '+' :: r => (false, r)
    | r => (false, r)
  let t := sgn.2
  let ip := t.takeWhile isDigitChar
  let r1 := t.drop ip.length
  let build : Dec → Option Dec := fun v =>
    some (if sgn.1 then (-v.1, v.2) else v)
  match r1 with
  | [] => if ip.isEmpty then none else build ((digitsVal ip : Int), 0)
  | '.' :: fr =>
    if allDigits fr && (!ip.isEmpty || !fr.isEmpty) then
      build ((digitsVal ip * pow10 fr.length + digitsVal fr : Nat), fr.length)
    else none
  | _ => none

/-- Trailing zero fraction digits removed: the shortest decimal form. -/
def stripZeros : Nat → Nat → Nat × Nat
  | num, 0 => (num, 0)
  | num, e + 1 => if num % 10 == 0 then stripZeros (num / 10) e else (num, e + 1)

def padZeros (k : Nat) (m : Nat) : PyStr :=
  List.replicate (k - (natRepr m).length) '0' ++ natRepr m

/-- Modelled from CPython str() of a float whose value is the terminating
decimal q: the shortest round-trip decimal form, which keeps one zero
fraction digit for an integral value (str of the float 100.0 is 100.0). -/
def pyFloatStr (q : Dec) : PyStr :=
  let neg := q.1 < 0
  let ne := stripZeros q.1.natAbs q.2
  let num := ne.1
  let k := ne.2
  let body :=
    if k == 0 then natRepr num ++ ('.' :: '0' :: [])
    else natRepr (num / pow10 k) ++ '.' :: padZeros k (num % pow10 k)
  if neg then '-' :: body else body

abbrev YtdDiag := PyStr × Dec × Dec

/-- One record of one field's validator pass: a present, parseable value
updates the running last value and, on a decrease beyond the tolerance,
appends a diagnostic; an absent or blank value is forward-filled from the
last value when one is defined. The record is mutated only by the
forward-fill. -/
def ytdStep (f : PyStr) (st : Option Dec × List YtdDiag) (r : Record) :
    (Option Dec × List YtdDiag) × Record :=
  let last := st.1
  let diags := st.2
  let cur := dictGetD r f []
  if !cur.isEmpty && !(pyStrip cur).isEmpty then
    match parseDec (cur.filter (fun c => !(c == ','))) with
    | some q =>
      let diags2 :=
        match last with
        | some l => if decLT q (decSub l oneCent) then diags ++ [(f, l, q)] else diags
        | none => diags
      ((some q, diags2), r)
    | none => ((last, diags), r)
  else
    match last with
    | some l => ((some l, diags), dictSet r f (pyFloatStr l))
    | none => ((last, diags), r)

/-- One field's walk over the whole batch in order. -/
def ytdFixAux (f : PyStr) : Option Dec × List YtdDiag → List Record →
    List YtdDiag × List Record
  | st, [] => (st.2, [])
  | st, r :: rs =>
    let step := ytdStep f st r
    let rest := ytdFixAux f step.1 rs
    (rest.1, step.2 :: rest.2)

def dedupAux (seen : List PyStr) : List PyStr → List PyStr
  | [] => []
  | k :: t => if seen.contains k then dedupAux seen t else k :: dedupAux (k :: seen) t

/-- Every distinct key ending in the YTD suffix across the batch. The source
iterates a Python set, whose order is arbitrary; the per-field passes are
independent, so first-appearance order is used. -/
def collectYtdFields (rs : List Record) : List PyStr :=
  dedupAux []
    (rs.foldl
      (fun acc r =>
        acc ++ (r.map (fun kv => kv.1)).filter (fun k => endsWithSuf (" YTD").toList k))
      [])

/-- Source validate_and_fix_ytd_values; the first component is the side
channel (one entry per decrease diagnostic), the second the batch. -/
def validate_and_fix_ytd_values (rs : List Record) : List YtdDiag × List Record :=
  (collectYtdFields rs).foldl
    (fun acc f => ytdFixAux f (none, acc.1) acc.2)
    ([], rs)

/-! ## The specification's rendering of a test integer, and the canonical
amount pattern -/

/-- Modelled from the spec: two decimal places for the cents part of n. -/
def pad2 (b : Nat) : PyStr := [digitChar (b / 10), digitChar (b % 10)]

/-- Modelled from the spec: a three-digit group of the dollars part. -/
def pad3 (b : Nat) : PyStr :=
  [digitChar (b / 100), digitChar (b / 10 % 10), digitChar (b % 10)]

def dollarGroupsAux : Nat → Nat → List PyStr
  | 0, _ => []
  | fuel + 1, m =>
    if m < 1000 then [natRepr m]
    else dollarGroupsAux fuel (m / 1000) ++ [pad3 (m % 1000)]

/-- Modelled from the spec: the dollars part grouped by a space every three
digits from the right. -/
def dollarGroups (m : Nat) : List PyStr := dollarGroupsAux (m + 1) m

/-- Modelled from the spec: the token sequence of n's decimal digits with a
space before the last two digits and a space every three digits from the
right of the dollars part (for n below 100 the dollars part is empty and
the rendering is the bare digits). -/
def renderTokens (n : Nat) : List PyStr :=
  if n < 100 then [natRepr n] else dollarGroups (n / 100) ++ [pad2 (n % 100)]

/-- A minus sign prefixed to the rendering glues to its first token. -/
def negTokens : List PyStr → List PyStr
  | [] => []
  | t :: ts => ('-' :: t) :: ts

/-- Modelled from the spec: n/100 formatted with two decimal places. -/
def fmt2 (n : Nat) : PyStr := natRepr (n / 100) ++ '.' :: pad2 (n % 100)

/-- A dot followed by exactly two digits, then the end. -/
def matchDotTwo : PyStr → Bool
  | '.' :: rest => rest.length == 2 && allDigits rest
  | _ => false

/-- The canonical amount pattern of the spec: an optional minus sign, at
least one digit, a dot, exactly two digits. -/
def matchesCanon (s : PyStr) : Bool :=
  let t := stripMinus s
  let d := t.takeWhile isDigitChar
  !d.isEmpty && matchDotTwo (t.drop d.length)

/-- The canonical pattern with the integer digits allowed to be absent. -/
def matchesLoose (s : PyStr) : Bool :=
  let t := stripMinus s
  matchDotTwo (t.drop (t.takeWhile isDigitChar).length)

/-! ## Lemma layer: amount cleaning and the canonical pattern -/

/-! ## Helper lemmas on characters and lists -/

theorem digit_ne {c : Char} (h : isDigitChar c = true) {d : Char}
    (hd : isDigitChar d = false) : c ≠ d := by
  rintro rfl; rw [h] at hd; exact absurd hd (by decide)

theorem keepCh_of_digit {c : Char} (h : isDigitChar c = true) : keepCh c = true := by
  have h1 : c ≠ ' ' := digit_ne h (by decide)
  have h2 : c ≠ ',' := digit_ne h (by decide)
  have h3 : c ≠ '*' := digit_ne h (by decide)
  simp [keepCh, h1, h2, h3]

theorem ws_of_digit {c : Char} (h : isDigitChar c = true) : isWSChar c = false := by
  have h1 : c ≠ ' ' := digit_ne h (by decide)
  have h2 : c ≠ '\t' := digit_ne h (by decide)
  have h3 : c ≠ '\n' := digit_ne h (by decide)
  have h4 : c ≠ '\x0d' := digit_ne h (by decide)
  have h5 : c ≠ '\x0b' := digit_ne h (by decide)
  have h6 : c ≠ '\x0c' := digit_ne h (by decide)
  simp [isWSChar, h1, h2, h3, h4, h5, h6]

theorem dropWhile_eq_self {p : Char → Bool} {l : List Char}
    (h : ∀ c ∈ l, p c = false) : l.dropWhile p = l := by
  cases l with
  | nil => rfl
  | cons a t => simp [List.dropWhile_cons, h a (by simp)]

theorem pyStrip_eq_self {l : List Char} (h : ∀ c ∈ l, isWSChar c = false) :
    pyStrip l = l := by
  unfold pyStrip
  rw [dropWhile_eq_self h, dropWhile_eq_self (fun c hc => h c (List.mem_reverse.mp hc)),
    List.reverse_reverse]

theorem rstripNl_eq_self {l : List Char} (h : ∀ c ∈ l, (c == '\n') = false) :
    rstripNl l = l := by
  unfold rstripNl
  rw [dropWhile_eq_self (fun c hc => h c (List.mem_reverse.mp hc)), List.reverse_reverse]

theorem filter_keep_of_digits {l : List Char} (h : allDigits l = true) :
    l.filter keepCh = l := by
  refine List.filter_eq_self.mpr (fun c hc => ?_)
  exact keepCh_of_digit (List.all_eq_true.mp h c hc)

theorem takeApp (xs ys : List Char) : (xs ++ ys).take xs.length = xs := by
  induction xs with
  | nil => rfl
  | cons a t ih => simp [ih]

theorem dropApp (xs ys : List Char) : (xs ++ ys).drop xs.length = ys := by
  induction xs with
  | nil => rfl
  | cons a t ih => simp [ih]

theorem takeWhile_digits_stop {r x : List Char} {c : Char} (hr : allDigits r = true)
    (hc : isDigitChar c = false) : (r ++ c :: x).takeWhile isDigitChar = r := by
  induction r with
  | nil => simp [List.takeWhile_cons, hc]
  | cons a t ih =>
    have ha : isDigitChar a = true := List.all_eq_true.mp hr a (by simp)
    have ht : allDigits t = true := by
      simp only [allDigits, List.all_cons, Bool.and_eq_true] at hr
      exact hr.2
    simp [List.takeWhile_cons, ha, ih ht]

theorem isEmpty_false_of_ne {D : List Char} (hne : D ≠ []) : D.isEmpty = false := by
  cases D with
  | nil => exact absurd rfl hne
  | cons a t => rfl

theorem clean_amount_digits {s D : List Char} (h : s.filter keepCh = D)
    (hd : allDigits D = true) (hl : 2 ≤ D.length) :
    clean_amount s = D.take (D.length - 2) ++ '.' :: D.drop (D.length - 2) := by
  have hmem : ∀ c ∈ D, isDigitChar c = true := List.all_eq_true.mp hd
  have hstrip : pyStrip D = D := pyStrip_eq_self (fun c hc => ws_of_digit (hmem c hc))
  have hnl : rstripNl D = D := rstripNl_eq_self (fun c hc => by
    have hcn := digit_ne (hmem c hc) (show isDigitChar '\n' = false by decide)
    simp [hcn])
  have hne : D ≠ [] := by intro e; rw [e] at hl; exact absurd hl (by decide)
  have hE : D.isEmpty = false := isEmpty_false_of_ne hne
  have hhead : (D.head? == some '-') = false := by
    cases D with
    | nil => exact absurd rfl hne
    | cons a t =>
      have ha : a ≠ '-' := digit_ne (hmem a (by simp)) (by decide)
      simp [ha]
  simp only [clean_amount]
  rw [h, hstrip, hnl]
  simp [hE, hhead, hd, hl, hne, hmem]
  intro x hx hxf
  exact absurd (hmem x hx) (by simp [hxf])

theorem clean_amount_neg {s D : List Char} (h : s.filter keepCh = '-' :: D)
    (hd : allDigits D = true) (hl : 2 ≤ D.length) :
    clean_amount s = '-' :: (D.take (D.length - 2) ++ '.' :: D.drop (D.length - 2)) := by
  have hmem : ∀ c ∈ D, isDigitChar c = true := List.all_eq_true.mp hd
  have hws : ∀ c ∈ ('-' :: D), isWSChar c = false := by
    intro c hc
    rcases List.mem_cons.mp hc with rfl | hc
    · decide
    · exact ws_of_digit (hmem c hc)
  have hstrip : pyStrip ('-' :: D) = '-' :: D := pyStrip_eq_self hws
  have hnl : rstripNl ('-' :: D) = '-' :: D := rstripNl_eq_self (by
    intro c hc
    rcases List.mem_cons.mp hc with rfl | hc
    · decide
    · have hcn := digit_ne (hmem c hc) (show isDigitChar '\n' = false by decide)
      simp [hcn])
  have hne : D ≠ [] := by intro e; rw [e] at hl; exact absurd hl (by decide)
  simp only [clean_amount]
  rw [h, hstrip, hnl]
  simp [isEmpty_false_of_ne hne, hd, hl, hne, hmem]
  intro x hx hxf
  exact absurd (hmem x hx) (by simp [hxf])

theorem clean_content_pos {s P S : List Char} (h : s.filter keepCh = P ++ S)
    (hP : allDigits P = true) (hS : allDigits S = true) (hsl : S.length = 2) :
    clean_amount s = P ++ '.' :: S := by
  have hd : allDigits (P ++ S) = true := by
    simp only [allDigits, List.all_append, Bool.and_eq_true]
    exact ⟨hP, hS⟩
  have hl : 2 ≤ (P ++ S).length := by simp [hsl]
  rw [clean_amount_digits h hd hl,
    show (P ++ S).length - 2 = P.length by simp [hsl], takeApp, dropApp]

theorem clean_content_negm {s P S : List Char} (h : s.filter keepCh = '-' :: (P ++ S))
    (hP : allDigits P = true) (hS : allDigits S = true) (hsl : S.length = 2) :
    clean_amount s = '-' :: (P ++ '.' :: S) := by
  have hd : allDigits (P ++ S) = true := by
    simp only [allDigits, List.all_append, Bool.and_eq_true]
    exact ⟨hP, hS⟩
  have hl : 2 ≤ (P ++ S).length := by simp [hsl]
  rw [clean_amount_neg h hd hl,
    show (P ++ S).length - 2 = P.length by simp [hsl], takeApp, dropApp]

theorem matchDotTwo_build {S : List Char} (hS : allDigits S = true)
    (hsl : S.length = 2) : matchDotTwo ('.' :: S) = true := by
  simp [matchDotTwo, hS, hsl]

theorem canon_build {P S : List Char} (hP : allDigits P = true) (hne : P ≠ [])
    (hS : allDigits S = true) (hsl : S.length = 2) :
    matchesCanon (P ++ '.' :: S) = true := by
  have hmem : ∀ c ∈ P, isDigitChar c = true := List.all_eq_true.mp hP
  have hsm : stripMinus (P ++ '.' :: S) = P ++ '.' :: S := by
    unfold stripMinus
    cases P with
    | nil => exact absurd rfl hne
    | cons a t =>
      have ha : a ≠ '-' := digit_ne (hmem a (by simp)) (by decide)
      simp [ha]
  have htw : (P ++ '.' :: S).takeWhile isDigitChar = P :=
    takeWhile_digits_stop hP (by decide)
  simp only [matchesCanon, hsm, htw, dropApp, Bool.and_eq_true]
  exact ⟨by simp [isEmpty_false_of_ne hne], matchDotTwo_build hS hsl⟩

theorem canon_build_neg {P S : List Char} (hP : allDigits P = true) (hne : P ≠ [])
    (hS : allDigits S = true) (hsl : S.length = 2) :
    matchesCanon ('-' :: (P ++ '.' :: S)) = true := by
  have htw : (P ++ '.' :: S).takeWhile isDigitChar = P :=
    takeWhile_digits_stop hP (by decide)
  have hsm : stripMinus ('-' :: (P ++ '.' :: S)) = P ++ '.' :: S := by
    simp [stripMinus]
  simp only [matchesCanon, hsm, htw, dropApp, Bool.and_eq_true]
  exact ⟨by simp [isEmpty_false_of_ne hne], matchDotTwo_build hS hsl⟩

theorem loose_of_canon {s : List Char} (h : matchesCanon s = true) :
    matchesLoose s = true := by
  simp only [matchesCanon, Bool.and_eq_true] at h
  simp only [matchesLoose]
  exact h.2

theorem loose_dot {S : List Char} (hS : allDigits S = true) (hsl : S.length = 2) :
    matchesLoose ('.' :: S) = true := by
  have hsm : stripMinus ('.' :: S) = '.' :: S := by simp [stripMinus]
  have htw : ('.' :: S).takeWhile isDigitChar = [] := by
    simp [List.takeWhile_cons, isDigitChar]
  simp only [matchesLoose, hsm, htw, List.length_nil, List.drop_zero]
  exact matchDotTwo_build hS hsl

theorem loose_dot_neg {S : List Char} (hS : allDigits S = true) (hsl : S.length = 2) :
    matchesLoose ('-' :: '.' :: S) = true := by
  have hsm : stripMinus ('-' :: '.' :: S) = '.' :: S := by simp [stripMinus]
  have htw : ('.' :: S).takeWhile isDigitChar = [] := by
    simp [List.takeWhile_cons, isDigitChar]
  simp only [matchesLoose, hsm, htw, List.length_nil, List.drop_zero]
  exact matchDotTwo_build hS hsl

theorem centsTok_inv {t : List Char} (h : centsTok t = true) :
    ∃ a b, isDigitChar a = true ∧ isDigitChar b = true ∧ (t = [a, b] ∨ t = [a, b, '*']) := by
  rcases t with _ | ⟨a, _ | ⟨b, _ | ⟨c, _ | ⟨d, t⟩⟩⟩⟩ <;> simp [centsTok] at h
  · exact ⟨a, b, h.1, h.2, Or.inl rfl⟩
  · exact ⟨a, b, h.1.1, h.1.2, Or.inr (by rw [h.2])⟩

theorem centsTok_filter {t : List Char} (h : centsTok t = true) :
    ∃ a b, isDigitChar a = true ∧ isDigitChar b = true ∧ t.filter keepCh = [a, b] := by
  obtain ⟨a, b, hda, hdb, hcase⟩ := centsTok_inv h
  refine ⟨a, b, hda, hdb, ?_⟩
  have hsx : keepCh '*' = false := by decide
  rcases hcase with rfl | rfl <;>
    simp [List.filter, keepCh_of_digit hda, keepCh_of_digit hdb, hsx]

theorem signedRun_inv {lo hi : Nat} {t : List Char} (h : signedRun lo hi t = true) :
    (allDigits t = true ∧ lo ≤ t.length ∧ t.length ≤ hi) ∨
      (∃ r, t = '-' :: r ∧ allDigits r = true ∧ lo ≤ r.length ∧ r.length ≤ hi) := by
  unfold signedRun stripMinus at h
  rcases t with _ | ⟨a, r⟩
  · left
    simp only [digitRun, Bool.and_eq_true, decide_eq_true_eq] at h
    simp only [allDigits]
    simp at h ⊢
    omega
  · by_cases ha : a = '-'
    · subst ha
      right
      simp only [List.head?_cons, List.tail_cons, show (some '-' == some '-') = true by decide,
        if_true] at h
      simp only [digitRun, Bool.and_eq_true, decide_eq_true_eq] at h
      exact ⟨r, rfl, h.2, h.1.1, h.1.2⟩
    · left
      have hx : ((a :: r).head? == some '-') = false := by simp [ha]
      rw [hx] at h
      simp only [Bool.false_eq_true, if_false, digitRun, Bool.and_eq_true,
        decide_eq_true_eq] at h
      exact ⟨h.2, h.1.1, h.1.2⟩

theorem digitRun_inv {lo hi : Nat} {t : List Char} (h : digitRun lo hi t = true) :
    allDigits t = true ∧ lo ≤ t.length ∧ t.length ≤ hi := by
  simp only [digitRun, Bool.and_eq_true, decide_eq_true_eq] at h
  exact ⟨h.2, h.1.1, h.1.2⟩

theorem ne_nil_of_one_le {t : List Char} (h : 1 ≤ t.length) : t ≠ [] := by
  intro e; rw [e] at h; exact absurd h (by decide)

theorem canon_clean2 {t1 t2 : List Char} (h1 : signedRun 1 4 t1 = true)
    (h2 : centsTok t2 = true) :
    matchesCanon (clean_amount (joinToks [t1, t2])) = true := by
  obtain ⟨a, b, hda, hdb, hf2⟩ := centsTok_filter h2
  have hS : allDigits [a, b] = true := by simp [allDigits, hda, hdb]
  have hsp : keepCh ' ' = false := by decide
  have hmi : keepCh '-' = true := by decide
  rcases signedRun_inv h1 with ⟨hall, hlo, _⟩ | ⟨r, rfl, hall, hlo, _⟩
  · have hne : t1 ≠ [] := ne_nil_of_one_le hlo
    have hfil : (joinToks [t1, t2]).filter keepCh = t1 ++ [a, b] := by
      show (t1 ++ ' ' :: t2).filter keepCh = t1 ++ [a, b]
      simp [List.filter_append, filter_keep_of_digits hall, hsp, hf2]
    rw [clean_content_pos hfil hall hS rfl]
    exact canon_build hall hne hS rfl
  · have hne : r ≠ [] := ne_nil_of_one_le hlo
    have hfil : (joinToks ['-' :: r, t2]).filter keepCh = '-' :: (r ++ [a, b]) := by
      show (('-' :: r) ++ ' ' :: t2).filter keepCh = '-' :: (r ++ [a, b])
      simp [List.filter_append, List.filter_cons, filter_keep_of_digits hall, hsp, hmi, hf2]
    rw [clean_content_negm hfil hall hS rfl]
    exact canon_build_neg hall hne hS rfl

theorem canon_clean3 {t1 t2 t3 : List Char} (h1 : signedRun 1 4 t1 = true)
    (h2 : digitRun 3 3 t2 = true) (h3 : centsTok t3 = true) :
    matchesCanon (clean_amount (joinToks [t1, t2, t3])) = true := by
  obtain ⟨a, b, hda, hdb, hf3⟩ := centsTok_filter h3
  obtain ⟨h2d, _, _⟩ := digitRun_inv h2
  have hS : allDigits [a, b] = true := by simp [allDigits, hda, hdb]
  have hsp : keepCh ' ' = false := by decide
  have hmi : keepCh '-' = true := by decide
  rcases signedRun_inv h1 with ⟨hall, hlo, _⟩ | ⟨r, rfl, hall, hlo, _⟩
  · have hne : t1 ++ t2 ≠ [] := by
      intro e
      exact ne_nil_of_one_le hlo (List.append_eq_nil.mp e).1
    have hP : allDigits (t1 ++ t2) = true := by
      simp only [allDigits, List.all_append, Bool.and_eq_true]
      exact ⟨hall, h2d⟩
    have hfil : (joinToks [t1, t2, t3]).filter keepCh = (t1 ++ t2) ++ [a, b] := by
      show (t1 ++ ' ' :: (t2 ++ ' ' :: t3)).filter keepCh = (t1 ++ t2) ++ [a, b]
      simp [List.filter_append, filter_keep_of_digits hall, filter_keep_of_digits h2d,
        hsp, hf3]
    rw [clean_content_pos hfil hP hS rfl]
    exact canon_build hP hne hS rfl
  · have hne : r ++ t2 ≠ [] := by
      intro e
      exact ne_nil_of_one_le hlo (List.append_eq_nil.mp e).1
    have hP : allDigits (r ++ t2) = true := by
      simp only [allDigits, List.all_append, Bool.and_eq_true]
      exact ⟨hall, h2d⟩
    have hfil : (joinToks ['-' :: r, t2, t3]).filter keepCh = '-' :: ((r ++ t2) ++ [a, b]) := by
      show (('-' :: r) ++ ' ' :: (t2 ++ ' ' :: t3)).filter keepCh = '-' :: ((r ++ t2) ++ [a, b])
      simp [List.filter_append, List.filter_cons, filter_keep_of_digits hall,
        filter_keep_of_digits h2d, hsp, hmi, hf3]
    rw [clean_content_negm hfil hP hS rfl]
    exact canon_build_neg hP hne hS rfl

theorem canon_clean4 {t1 t2 t3 t4 : List Char} (h1 : signedRun 1 4 t1 = true)
    (h2 : digitRun 3 3 t2 = true) (h3 : digitRun 3 3 t3 = true) (h4 : centsTok t4 = true) :
    matchesCanon (clean_amount (joinToks [t1, t2, t3, t4])) = true := by
  obtain ⟨a, b, hda, hdb, hf4⟩ := centsTok_filter h4
  obtain ⟨h2d, _, _⟩ := digitRun_inv h2
  obtain ⟨h3d, _, _⟩ := digitRun_inv h3
  have hS : allDigits [a, b] = true := by simp [allDigits, hda, hdb]
  have hsp : keepCh ' ' = false := by decide
  have hmi : keepCh '-' = true := by decide
  rcases signedRun_inv h1 with ⟨hall, hlo, _⟩ | ⟨r, rfl, hall, hlo, _⟩
  · have hne : t1 ++ (t2 ++ t3) ≠ [] := by
      intro e
      exact ne_nil_of_one_le hlo (List.append_eq_nil.mp e).1
    have hP : allDigits (t1 ++ (t2 ++ t3)) = true := by
      simp only [allDigits, List.all_append, Bool.and_eq_true]
      exact ⟨hall, h2d, h3d⟩
    have hfil : (joinToks [t1, t2, t3, t4]).filter keepCh = (t1 ++ (t2 ++ t3)) ++ [a, b] := by
      show (t1 ++ ' ' :: (t2 ++ ' ' :: (t3 ++ ' ' :: t4))).filter keepCh =
        (t1 ++ (t2 ++ t3)) ++ [a, b]
      simp [List.filter_append, filter_keep_of_digits hall, filter_keep_of_digits h2d,
        filter_keep_of_digits h3d, hsp, hf4]
    rw [clean_content_pos hfil hP hS rfl]
    exact canon_build hP hne hS rfl
  · have hne : r ++ (t2 ++ t3) ≠ [] := by
      intro e
      exact ne_nil_of_one_le hlo (List.append_eq_nil.mp e).1
    have hP : allDigits (r ++ (t2 ++ t3)) = true := by
      simp only [allDigits, List.all_append, Bool.and_eq_true]
      exact ⟨hall, h2d, h3d⟩
    have hfil : (joinToks ['-' :: r, t2, t3, t4]).filter keepCh =
        '-' :: ((r ++ (t2 ++ t3)) ++ [a, b]) := by
      show (('-' :: r) ++ ' ' :: (t2 ++ ' ' :: (t3 ++ ' ' :: t4))).filter keepCh =
        '-' :: ((r ++ (t2 ++ t3)) ++ [a, b])
      simp [List.filter_append, List.filter_cons, filter_keep_of_digits hall,
        filter_keep_of_digits h2d, filter_keep_of_digits h3d, hsp, hmi, hf4]
    rw [clean_content_negm hfil hP hS rfl]
    exact canon_build_neg hP hne hS rfl

theorem loose_clean1 {t : List Char} (h : shape1 t = true) :
    matchesLoose (clean_amount t) = true := by
  unfold shape1 stripMinus at h
  rcases t with _ | ⟨a, r⟩
  · exact absurd h (by decide)
  · by_cases ha : a = '-'
    · subst ha
      simp only [List.head?_cons, List.tail_cons,
        show (some '-' == some '-') = true by decide, if_true] at h
      obtain ⟨x, y, hdx, hdy, hfr⟩ := centsTok_filter h
      have hfil : ('-' :: r).filter keepCh = '-' :: (([] : List Char) ++ [x, y]) := by
        simp [List.filter_cons, show keepCh '-' = true by decide, hfr]
      have hS : allDigits [x, y] = true := by simp [allDigits, hdx, hdy]
      rw [clean_content_negm hfil (by decide) hS rfl]
      exact loose_dot_neg hS rfl
    · have hx : ((a :: r).head? == some '-') = false := by simp [ha]
      rw [hx] at h
      simp only [Bool.false_eq_true, if_false] at h
      obtain ⟨x, y, hdx, hdy, hfr⟩ := centsTok_filter h
      have hfil : (a :: r).filter keepCh = ([] : List Char) ++ [x, y] := by simp [hfr]
      have hS : allDigits [x, y] = true := by simp [allDigits, hdx, hdy]
      rw [clean_content_pos hfil (by decide) hS rfl]
      exact loose_dot hS rfl

theorem tryShapes_pattern {ts : List PyStr} {a : PyStr} {k : Nat} {rem : List PyStr}
    (h : tryShapes ts = some (a, k, rem)) :
    matchesLoose a = true ∧ (2 ≤ k → matchesCanon a = true) := by
  rcases ts with _ | ⟨t1, _ | ⟨t2, _ | ⟨t3, _ | ⟨t4, rest⟩⟩⟩⟩ <;>
    simp only [tryShapes] at h
  · exact absurd h (by simp)
  · split_ifs at h with h1
    · simp only [Option.some.injEq, Prod.mk.injEq] at h
      obtain ⟨rfl, rfl, rfl⟩ := h
      exact ⟨loose_clean1 h1, fun hk => absurd hk (by decide)⟩
  · split_ifs at h with h2 h1
    · simp only [Option.some.injEq, Prod.mk.injEq] at h
      obtain ⟨rfl, rfl, rfl⟩ := h
      simp only [shape2, Bool.and_eq_true] at h2
      have hc := canon_clean2 h2.1 h2.2
      exact ⟨loose_of_canon hc, fun _ => hc⟩
    · simp only [Option.some.injEq, Prod.mk.injEq] at h
      obtain ⟨rfl, rfl, rfl⟩ := h
      exact ⟨loose_clean1 h1, fun hk => absurd hk (by decide)⟩
  · split_ifs at h with h3 h2 h1
    · simp only [Option.some.injEq, Prod.mk.injEq] at h
      obtain ⟨rfl, rfl, rfl⟩ := h
      simp only [shape3, Bool.and_eq_true] at h3
      have hc := canon_clean3 h3.1.1 h3.1.2 h3.2
      exact ⟨loose_of_canon hc, fun _ => hc⟩
    · simp only [Option.some.injEq, Prod.mk.injEq] at h
      obtain ⟨rfl, rfl, rfl⟩ := h
      simp only [shape2, Bool.and_eq_true] at h2
      have hc := canon_clean2 h2.1 h2.2
      exact ⟨loose_of_canon hc, fun _ => hc⟩
    · simp only [Option.some.injEq, Prod.mk.injEq] at h
      obtain ⟨rfl, rfl, rfl⟩ := h
      exact ⟨loose_clean1 h1, fun hk => absurd hk (by decide)⟩
  · split_ifs at h with h4 h3 h2 h1
    · simp only [Option.some.injEq, Prod.mk.injEq] at h
      obtain ⟨rfl, rfl, rfl⟩ := h
      simp only [shape4, Bool.and_eq_true] at h4
      have hc := canon_clean4 h4.1.1.1 h4.1.1.2 h4.1.2 h4.2
      exact ⟨loose_of_canon hc, fun _ => hc⟩
    · simp only [Option.some.injEq, Prod.mk.injEq] at h
      obtain ⟨rfl, rfl, rfl⟩ := h
      simp only [shape3, Bool.and_eq_true] at h3
      have hc := canon_clean3 h3.1.1 h3.1.2 h3.2
      exact ⟨loose_of_canon hc, fun _ => hc⟩
    · simp only [Option.some.injEq, Prod.mk.injEq] at h
      obtain ⟨rfl, rfl, rfl⟩ := h
      simp only [shape2, Bool.and_eq_true] at h2
      have hc := canon_clean2 h2.1 h2.2
      exact ⟨loose_of_canon hc, fun _ => hc⟩
    · simp only [Option.some.injEq, Prod.mk.injEq] at h
      obtain ⟨rfl, rfl, rfl⟩ := h
      exact ⟨loose_clean1 h1, fun hk => absurd hk (by decide)⟩

theorem extract_first_pattern {line desc a : PyStr}
    (h : extract_first_amount_from_line line desc = some a) : matchesLoose a = true := by
  unfold extract_first_amount_from_line at h
  rcases hsp : pySplit (descRemainder line desc) with _ | ⟨t1, _ | ⟨t2, _ | ⟨t3, rest⟩⟩⟩ <;>
    rw [hsp] at h <;> simp only [extractFirstTok] at h
  · exact absurd h (by simp)
  · split_ifs at h with h1
    · simp only [Option.some.injEq] at h
      subst h
      exact loose_clean1 h1
  · split_ifs at h with h2 h1
    · simp only [Option.some.injEq] at h
      subst h
      simp only [shape2, Bool.and_eq_true] at h2
      exact loose_of_canon (canon_clean2 h2.1 h2.2)
    · simp only [Option.some.injEq] at h
      subst h
      exact loose_clean1 h1
  · split_ifs at h with h3 h2 h1
    · simp only [Option.some.injEq] at h
      subst h
      simp only [shape3, Bool.and_eq_true] at h3
      exact loose_of_canon (canon_clean3 h3.1.1 h3.1.2 h3.2)
    · simp only [Option.some.injEq] at h
      subst h
      simp only [shape2, Bool.and_eq_true] at h2
      exact loose_of_canon (canon_clean2 h2.1 h2.2)
    · simp only [Option.some.injEq] at h
      subst h
      exact loose_clean1 h1

/-! ## Lemma layer: decimal rendering and the lexer on rendered integers -/

theorem natReprAux_fuel : ∀ n fuel : Nat, n < fuel → natReprAux fuel n = natReprAux (n + 1) n := by
  intro n
  induction n using Nat.strong_induction_on with
  | _ n ih =>
    intro fuel hf
    match fuel, hf with
    | fuel + 1, hf =>
      by_cases h10 : n < 10
      · simp [natReprAux, h10]
      · have hd : n / 10 < n := Nat.div_lt_self (by omega) (by omega)
        have h1 : natReprAux (fuel + 1) n = natReprAux fuel (n / 10) ++ [digitChar (n % 10)] := by
          simp [natReprAux, h10]
        have h2 : natReprAux (n + 1) n = natReprAux n (n / 10) ++ [digitChar (n % 10)] := by
          simp [natReprAux, h10]
        rw [h1, h2, ih (n / 10) hd fuel (by omega), ih (n / 10) hd n (by omega)]

theorem natRepr_eq (n : Nat) :
    natRepr n = if n < 10 then [digitChar n] else natRepr (n / 10) ++ [digitChar (n % 10)] := by
  by_cases h10 : n < 10
  · simp [natRepr, natReprAux, h10]
  · have hd : n / 10 < n := Nat.div_lt_self (by omega) (by omega)
    rw [if_neg h10]
    show natReprAux (n + 1) n = _
    have h2 : natReprAux (n + 1) n = natReprAux n (n / 10) ++ [digitChar (n % 10)] := by
      simp [natReprAux, h10]
    rw [h2, natReprAux_fuel (n / 10) n hd]
    rfl

theorem digitChar_digit : ∀ d : Nat, isDigitChar (digitChar d) = true := by
  intro d
  rcases d with _|_|_|_|_|_|_|_|_|_|d <;> rfl

theorem allDigits_append (a b : List Char) :
    allDigits (a ++ b) = (allDigits a && allDigits b) := by
  simp [allDigits, List.all_append]

theorem natRepr_allDigits : ∀ n, allDigits (natRepr n) = true := by
  intro n
  induction n using Nat.strong_induction_on with
  | _ n ih =>
    rw [natRepr_eq]
    by_cases h10 : n < 10
    · simp [h10, allDigits, digitChar_digit]
    · have hd : n / 10 < n := Nat.div_lt_self (by omega) (by omega)
      rw [if_neg h10, allDigits_append, ih _ hd]
      simp [allDigits, digitChar_digit]

theorem natRepr_ne_nil (n : Nat) : natRepr n ≠ [] := by
  rw [natRepr_eq]
  by_cases h10 : n < 10 <;> simp [h10]

theorem natRepr_len_le : ∀ k n : Nat, n < 10 ^ (k + 1) → (natRepr n).length ≤ k + 1 := by
  intro k
  induction k with
  | zero =>
    intro n h
    rw [natRepr_eq, if_pos (by simpa using h)]
    rfl
  | succ k ih =>
    intro n h
    rw [natRepr_eq]
    by_cases h10 : n < 10
    · simp [h10]
    · rw [if_neg h10]
      have hq : n / 10 < 10 ^ (k + 1) := by
        have hp : (10 : Nat) ^ (k + 2) = 10 ^ (k + 1) * 10 := by ring
        rw [hp] at h
        omega
      have hle := ih _ hq
      simp only [List.length_append, List.length_cons, List.length_nil]
      omega

theorem natRepr_shift10 {a b : Nat} (ha : 0 < a) (hb : b < 10) :
    natRepr (a * 10 + b) = natRepr a ++ [digitChar b] := by
  rw [natRepr_eq (a * 10 + b)]
  have h1 : ¬(a * 10 + b < 10) := by omega
  have h2 : (a * 10 + b) / 10 = a := by omega
  have h3 : (a * 10 + b) % 10 = b := by omega
  rw [if_neg h1, h2, h3]

theorem natRepr_shift1000 {a b : Nat} (ha : 0 < a) (hb : b < 1000) :
    natRepr (a * 1000 + b) = natRepr a ++ pad3 b := by
  have e1 : a * 1000 + b = ((a * 10 + b / 100) * 10 + b / 10 % 10) * 10 + b % 10 := by omega
  rw [e1, natRepr_shift10 (by omega) (by omega), natRepr_shift10 (by omega) (by omega),
    natRepr_shift10 ha (by omega)]
  simp [pad3]

theorem dollarGroupsAux_fuel :
    ∀ m fuel : Nat, m < fuel → dollarGroupsAux fuel m = dollarGroupsAux (m + 1) m := by
  intro m
  induction m using Nat.strong_induction_on with
  | _ m ih =>
    intro fuel hf
    match fuel, hf with
    | fuel + 1, hf =>
      by_cases hs : m < 1000
      · simp [dollarGroupsAux, hs]
      · have hd : m / 1000 < m := Nat.div_lt_self (by omega) (by omega)
        have h1 : dollarGroupsAux (fuel + 1) m =
            dollarGroupsAux fuel (m / 1000) ++ [pad3 (m % 1000)] := by
          simp [dollarGroupsAux, hs]
        have h2 : dollarGroupsAux (m + 1) m =
            dollarGroupsAux m (m / 1000) ++ [pad3 (m % 1000)] := by
          simp [dollarGroupsAux, hs]
        rw [h1, h2, ih (m / 1000) hd fuel (by omega), ih (m / 1000) hd m (by omega)]

theorem dollarGroups_eq (m : Nat) :
    dollarGroups m =
      if m < 1000 then [natRepr m] else dollarGroups (m / 1000) ++ [pad3 (m % 1000)] := by
  by_cases hs : m < 1000
  · simp [dollarGroups, dollarGroupsAux, hs]
  · have hd : m / 1000 < m := Nat.div_lt_self (by omega) (by omega)
    rw [if_neg hs]
    show dollarGroupsAux (m + 1) m = _
    have h2 : dollarGroupsAux (m + 1) m =
        dollarGroupsAux m (m / 1000) ++ [pad3 (m % 1000)] := by
      simp [dollarGroupsAux, hs]
    rw [h2, dollarGroupsAux_fuel (m / 1000) m hd]
    rfl

theorem dg_small {m : Nat} (h : m < 1000) : dollarGroups m = [natRepr m] := by
  rw [dollarGroups_eq, if_pos h]

theorem dg_mid {m : Nat} (h1 : 1000 ≤ m) (h2 : m < 1000000) :
    dollarGroups m = [natRepr (m / 1000), pad3 (m % 1000)] := by
  rw [dollarGroups_eq, if_neg (by omega), dg_small (by omega)]
  rfl

theorem dg_big {m : Nat} (h1 : 1000000 ≤ m) (h2 : m < 10000000) :
    dollarGroups m = [natRepr (m / 1000000), pad3 (m / 1000 % 1000), pad3 (m % 1000)] := by
  rw [dollarGroups_eq, if_neg (by omega), dg_mid (by omega) (by omega),
    show m / 1000 / 1000 = m / 1000000 by omega]
  rfl

theorem pad3_digits (b : Nat) : allDigits (pad3 b) = true := by
  simp [pad3, allDigits, digitChar_digit]

theorem pad2_digits (b : Nat) : allDigits (pad2 b) = true := by
  simp [pad2, allDigits, digitChar_digit]

theorem centsTok_pad2 (b : Nat) : centsTok (pad2 b) = true := by
  simp [pad2, centsTok, digitChar_digit]

theorem digitRun_pad3 (b : Nat) : digitRun 3 3 (pad3 b) = true := by
  simp [digitRun, pad3, allDigits, digitChar_digit]

theorem stripMinus_of_digits {t : List Char} (h : allDigits t = true) : stripMinus t = t := by
  unfold stripMinus
  cases t with
  | nil => simp
  | cons a r =>
    have ha : a ≠ '-' := digit_ne (List.all_eq_true.mp h a (by simp)) (by decide)
    simp [ha]

theorem signedRun_natRepr {m k : Nat} (h : m < 10 ^ (k + 1)) (hk : k + 1 ≤ 4) :
    signedRun 1 4 (natRepr m) = true := by
  unfold signedRun
  rw [stripMinus_of_digits (natRepr_allDigits m)]
  have hlen := natRepr_len_le k m h
  have hpos : 0 < (natRepr m).length := List.length_pos.mpr (natRepr_ne_nil m)
  simp [digitRun, natRepr_allDigits]
  omega

theorem signedRun_neg_natRepr {m k : Nat} (h : m < 10 ^ (k + 1)) (hk : k + 1 ≤ 4) :
    signedRun 1 4 ('-' :: natRepr m) = true := by
  unfold signedRun
  rw [show stripMinus ('-' :: natRepr m) = natRepr m by simp [stripMinus]]
  have hlen := natRepr_len_le k m h
  have hpos : 0 < (natRepr m).length := List.length_pos.mpr (natRepr_ne_nil m)
  simp [digitRun, natRepr_allDigits]
  omega

theorem extractTok_two {t1 t2 : PyStr} (h2 : shape2 t1 t2 = true) :
    (extractAmountsTok [t1, t2]).1 = some (clean_amount (joinToks [t1, t2])) := by
  unfold extractAmountsTok scanFirst
  simp [tryShapes, h2]

theorem extractTok_three {t1 t2 t3 : PyStr} (h3 : shape3 t1 t2 t3 = true) :
    (extractAmountsTok [t1, t2, t3]).1 = some (clean_amount (joinToks [t1, t2, t3])) := by
  unfold extractAmountsTok scanFirst
  simp [tryShapes, h3]

theorem extractTok_four {t1 t2 t3 t4 : PyStr} (h4 : shape4 t1 t2 t3 t4 = true) :
    (extractAmountsTok [t1, t2, t3, t4]).1 =
      some (clean_amount (joinToks [t1, t2, t3, t4])) := by
  unfold extractAmountsTok scanFirst
  simp [tryShapes, h4]

theorem clean_join_two {t1 : PyStr} {c : Nat} (ht : allDigits t1 = true) :
    clean_amount (joinToks [t1, pad2 c]) = t1 ++ '.' :: pad2 c := by
  apply clean_content_pos
  · show (t1 ++ ' ' :: pad2 c).filter keepCh = t1 ++ pad2 c
    simp [List.filter_append, filter_keep_of_digits ht,
      filter_keep_of_digits (pad2_digits c), show keepCh ' ' = false from by decide]
  · exact ht
  · exact pad2_digits c
  · rfl

theorem clean_join_two_neg {t1 : PyStr} {c : Nat} (ht : allDigits t1 = true) :
    clean_amount (joinToks ['-' :: t1, pad2 c]) = '-' :: (t1 ++ '.' :: pad2 c) := by
  apply clean_content_negm
  · show (('-' :: t1) ++ ' ' :: pad2 c).filter keepCh = '-' :: (t1 ++ pad2 c)
    simp [List.filter_append, List.filter_cons, filter_keep_of_digits ht,
      filter_keep_of_digits (pad2_digits c), show keepCh ' ' = false from by decide,
      show keepCh '-' = true from by decide]
  · exact ht
  · exact pad2_digits c
  · rfl

theorem clean_join_three {t1 : PyStr} {b c : Nat} (ht : allDigits t1 = true) :
    clean_amount (joinToks [t1, pad3 b, pad2 c]) = (t1 ++ pad3 b) ++ '.' :: pad2 c := by
  apply clean_content_pos
  · show (t1 ++ ' ' :: (pad3 b ++ ' ' :: pad2 c)).filter keepCh = (t1 ++ pad3 b) ++ pad2 c
    simp [List.filter_append, filter_keep_of_digits ht, filter_keep_of_digits (pad3_digits b),
      filter_keep_of_digits (pad2_digits c), show keepCh ' ' = false from by decide]
  · rw [allDigits_append, ht, pad3_digits]
    rfl
  · exact pad2_digits c
  · rfl

theorem clean_join_three_neg {t1 : PyStr} {b c : Nat} (ht : allDigits t1 = true) :
    clean_amount (joinToks ['-' :: t1, pad3 b, pad2 c]) =
      '-' :: ((t1 ++ pad3 b) ++ '.' :: pad2 c) := by
  apply clean_content_negm
  · show (('-' :: t1) ++ ' ' :: (pad3 b ++ ' ' :: pad2 c)).filter keepCh =
      '-' :: ((t1 ++ pad3 b) ++ pad2 c)
    simp [List.filter_append, List.filter_cons, filter_keep_of_digits ht,
      filter_keep_of_digits (pad3_digits b), filter_keep_of_digits (pad2_digits c),
      show keepCh ' ' = false from by decide, show keepCh '-' = true from by decide]
  · rw [allDigits_append, ht, pad3_digits]
    rfl
  · exact pad2_digits c
  · rfl

theorem clean_join_four {t1 : PyStr} {a b c : Nat} (ht : allDigits t1 = true) :
    clean_amount (joinToks [t1, pad3 a, pad3 b, pad2 c]) =
      ((t1 ++ pad3 a) ++ pad3 b) ++ '.' :: pad2 c := by
  apply clean_content_pos
  · show (t1 ++ ' ' :: (pad3 a ++ ' ' :: (pad3 b ++ ' ' :: pad2 c))).filter keepCh =
      ((t1 ++ pad3 a) ++ pad3 b) ++ pad2 c
    simp [List.filter_append, filter_keep_of_digits ht, filter_keep_of_digits (pad3_digits a),
      filter_keep_of_digits (pad3_digits b), filter_keep_of_digits (pad2_digits c),
      show keepCh ' ' = false from by decide]
  · rw [allDigits_append, allDigits_append, ht, pad3_digits, pad3_digits]
    rfl
  · exact pad2_digits c
  · rfl

theorem clean_join_four_neg {t1 : PyStr} {a b c : Nat} (ht : allDigits t1 = true) :
    clean_amount (joinToks ['-' :: t1, pad3 a, pad3 b, pad2 c]) =
      '-' :: (((t1 ++ pad3 a) ++ pad3 b) ++ '.' :: pad2 c) := by
  apply clean_content_negm
  · show (('-' :: t1) ++ ' ' :: (pad3 a ++ ' ' :: (pad3 b ++ ' ' :: pad2 c))).filter keepCh =
      '-' :: (((t1 ++ pad3 a) ++ pad3 b) ++ pad2 c)
    simp [List.filter_append, List.filter_cons, filter_keep_of_digits ht,
      filter_keep_of_digits (pad3_digits a), filter_keep_of_digits (pad3_digits b),
      filter_keep_of_digits (pad2_digits c), show keepCh ' ' = false from by decide,
      show keepCh '-' = true from by decide]
  · rw [allDigits_append, allDigits_append, ht, pad3_digits, pad3_digits]
    rfl
  · exact pad2_digits c
  · rfl

theorem render_lex_pos_neg :
    ∀ n : Nat, 100 ≤ n → n < 1000000000 →
      (extractAmountsTok (renderTokens n)).1 = some (fmt2 n) ∧
      (extractAmountsTok (negTokens (renderTokens n))).1 = some ('-' :: fmt2 n) := by
  intro n h1 h9
  have hrt : renderTokens n = dollarGroups (n / 100) ++ [pad2 (n % 100)] := by
    simp [renderTokens, show ¬ n < 100 by omega]
  by_cases hA : n < 100000
  · have hm : n / 100 < 1000 := by omega
    have hm0 : 0 < n / 100 := by omega
    have hk : n / 100 < 10 ^ (2 + 1) := by norm_num; omega
    have hs2 : shape2 (natRepr (n / 100)) (pad2 (n % 100)) = true := by
      simp [shape2, signedRun_natRepr hk (by norm_num), centsTok_pad2]
    have hs2n : shape2 ('-' :: natRepr (n / 100)) (pad2 (n % 100)) = true := by
      simp [shape2, signedRun_neg_natRepr hk (by norm_num), centsTok_pad2]
    rw [hrt, dg_small hm]
    simp only [List.cons_append, List.nil_append, negTokens]
    constructor
    · rw [extractTok_two hs2, clean_join_two (natRepr_allDigits _)]
      rfl
    · rw [extractTok_two hs2n, clean_join_two_neg (natRepr_allDigits _)]
      rfl
  · by_cases hB : n < 100000000
    · have hm1 : 1000 ≤ n / 100 := by omega
      have hm2 : n / 100 < 1000000 := by omega
      have hq : n / 100 / 1000 < 1000 := by omega
      have hq0 : 0 < n / 100 / 1000 := by omega
      have hk : n / 100 / 1000 < 10 ^ (2 + 1) := by norm_num; omega
      have hfold : natRepr (n / 100 / 1000) ++ pad3 (n / 100 % 1000) = natRepr (n / 100) := by
        rw [← natRepr_shift1000 hq0 (by omega),
          show n / 100 / 1000 * 1000 + n / 100 % 1000 = n / 100 by omega]
      have hs3 : shape3 (natRepr (n / 100 / 1000)) (pad3 (n / 100 % 1000))
          (pad2 (n % 100)) = true := by
        simp [shape3, signedRun_natRepr hk (by norm_num), digitRun_pad3, centsTok_pad2]
      have hs3n : shape3 ('-' :: natRepr (n / 100 / 1000)) (pad3 (n / 100 % 1000))
          (pad2 (n % 100)) = true := by
        simp [shape3, signedRun_neg_natRepr hk (by norm_num), digitRun_pad3, centsTok_pad2]
      rw [hrt, dg_mid hm1 hm2]
      simp only [List.cons_append, List.nil_append, negTokens]
      constructor
      · rw [extractTok_three hs3, clean_join_three (natRepr_allDigits _), hfold]
        rfl
      · rw [extractTok_three hs3n, clean_join_three_neg (natRepr_allDigits _), hfold]
        rfl
    · have hm1 : 1000000 ≤ n / 100 := by omega
      have hm2 : n / 100 < 10000000 := by omega
      have hq : n / 100 / 1000000 < 10 := by omega
      have hq0 : 0 < n / 100 / 1000000 := by omega
      have hk : n / 100 / 1000000 < 10 ^ (0 + 1) := by norm_num; omega
      have hfold1 : natRepr (n / 100 / 1000000) ++ pad3 (n / 100 / 1000 % 1000) =
          natRepr (n / 100 / 1000) := by
        rw [← natRepr_shift1000 hq0 (by omega),
          show n / 100 / 1000000 * 1000 + n / 100 / 1000 % 1000 = n / 100 / 1000 by omega]
      have hfold2 : natRepr (n / 100 / 1000) ++ pad3 (n / 100 % 1000) = natRepr (n / 100) := by
        rw [← natRepr_shift1000 (by omega) (by omega),
          show n / 100 / 1000 * 1000 + n / 100 % 1000 = n / 100 by omega]
      have hs4 : shape4 (natRepr (n / 100 / 1000000)) (pad3 (n / 100 / 1000 % 1000))
          (pad3 (n / 100 % 1000)) (pad2 (n % 100)) = true := by
        simp [shape4, signedRun_natRepr hk (by norm_num), digitRun_pad3, centsTok_pad2]
      have hs4n : shape4 ('-' :: natRepr (n / 100 / 1000000)) (pad3 (n / 100 / 1000 % 1000))
          (pad3 (n / 100 % 1000)) (pad2 (n % 100)) = true := by
        simp [shape4, signedRun_neg_natRepr hk (by norm_num), digitRun_pad3, centsTok_pad2]
      rw [hrt, dg_big hm1 hm2]
      simp only [List.cons_append, List.nil_append, negTokens]
      constructor
      · rw [extractTok_four hs4, clean_join_four (natRepr_allDigits _), hfold1, hfold2]
        rfl
      · rw [extractTok_four hs4n, clean_join_four_neg (natRepr_allDigits _), hfold1, hfold2]
        rfl

/-! ## Lemma layer: validator frame, earnings dispatch, deduction special cases -/

theorem dictFind_set_ne {k f : PyStr} (hne : k ≠ f) (r : Record) (v : PyStr) :
    dictFind (dictSet r f v) k = dictFind r k := by
  induction r with
  | nil =>
    have hfk : f ≠ k := fun e => hne e.symm
    simp [dictSet, dictFind, hfk]
  | cons kv t ih =>
    by_cases he : kv.1 == f
    · have : kv.1 = f := by simpa using he
      subst this
      have hfk : kv.1 ≠ k := fun e => hne e.symm
      simp [dictSet, dictFind, hfk]
    · simp only [dictSet, dictFind]
      rw [if_neg (by simpa using he)]
      simp only [dictFind]
      by_cases hk : kv.1 == k <;> simp [hk, ih]

theorem ytdStep_frame {f k : PyStr} (hne : k ≠ f) (st : Option Dec × List YtdDiag)
    (r : Record) : dictFind ((ytdStep f st r).2) k = dictFind r k := by
  simp only [ytdStep]
  split
  · split
    · rfl
    · rfl
  · split
    · exact dictFind_set_ne hne r _
    · rfl

theorem ytdFixAux_len (f : PyStr) (st : Option Dec × List YtdDiag) (rs : List Record) :
    ((ytdFixAux f st rs).2).length = rs.length := by
  induction rs generalizing st with
  | nil => rfl
  | cons r rest ih => simp [ytdFixAux, ih]

theorem ytdFixAux_frame {f k : PyStr} (hne : k ≠ f) (st : Option Dec × List YtdDiag)
    (rs : List Record) (i : Nat) :
    dictFind (((ytdFixAux f st rs).2).getD i []) k = dictFind (rs.getD i []) k := by
  induction rs generalizing st i with
  | nil => simp [ytdFixAux]
  | cons r rest ih =>
    cases i with
    | zero => simp [ytdFixAux, ytdStep_frame hne]
    | succ j =>
      simp only [ytdFixAux, List.getD_cons_succ]
      exact ih _ _

theorem dedupAux_subset {x : PyStr} : ∀ {seen l : List PyStr}, x ∈ dedupAux seen l → x ∈ l := by
  intro seen l
  induction l generalizing seen with
  | nil => simp [dedupAux]
  | cons k t ih =>
    intro h
    simp only [dedupAux] at h
    by_cases hc : seen.contains k
    · rw [if_pos hc] at h
      exact List.mem_cons_of_mem _ (ih h)
    · rw [if_neg hc] at h
      rcases List.mem_cons.mp h with rfl | h
      · exact List.mem_cons_self _ _
      · exact List.mem_cons_of_mem _ (ih h)

theorem foldl_fields_end {x : PyStr} :
    ∀ (rs : List Record) (acc : List PyStr),
      (∀ y ∈ acc, endsWithSuf (" YTD").toList y = true) →
      x ∈ rs.foldl
          (fun acc r =>
            acc ++ (r.map (fun kv => kv.1)).filter (fun k => endsWithSuf (" YTD").toList k))
          acc →
      endsWithSuf (" YTD").toList x = true := by
  intro rs
  induction rs with
  | nil => intro acc hacc h; exact hacc x h
  | cons r rest ih =>
    intro acc hacc h
    refine ih _ ?_ h
    intro y hy
    rcases List.mem_append.mp hy with hy | hy
    · exact hacc y hy
    · exact (List.mem_filter.mp hy).2

theorem collectYtdFields_end {rs : List Record} {f : PyStr}
    (h : f ∈ collectYtdFields rs) : endsWithSuf (" YTD").toList f = true := by
  have h2 := dedupAux_subset h
  exact foldl_fields_end rs [] (by simp) h2

theorem fold_validate_frame {k : PyStr} (hk : endsWithSuf (" YTD").toList k = false) :
    ∀ (fs : List PyStr), (∀ f ∈ fs, endsWithSuf (" YTD").toList f = true) →
      ∀ (acc : List YtdDiag × List Record),
        ((fs.foldl (fun acc f => ytdFixAux f (none, acc.1) acc.2) acc).2).length =
            (acc.2).length ∧
          ∀ i, dictFind
              (((fs.foldl (fun acc f => ytdFixAux f (none, acc.1) acc.2) acc).2).getD i [])
              k = dictFind ((acc.2).getD i []) k := by
  intro fs
  induction fs with
  | nil => intro _ acc; exact ⟨rfl, fun i => rfl⟩
  | cons f rest ih =>
    intro hall acc
    have hf : endsWithSuf (" YTD").toList f = true := hall f (by simp)
    have hne : k ≠ f := by
      intro e
      rw [e, hf] at hk
      exact absurd hk (by simp)
    have hrest := ih (fun g hg => hall g (List.mem_cons_of_mem _ hg))
      (ytdFixAux f (none, acc.1) acc.2)
    simp only [List.foldl_cons]
    refine ⟨?_, fun i => ?_⟩
    · rw [hrest.1, ytdFixAux_len]
    · rw [hrest.2 i, ytdFixAux_frame hne]

theorem earnDispatch_by_count :
    ∀ (d : Record) (line desc : PyStr),
      earnDescOf line = some desc →
      desc ≠ ("Net Pay").toList →
      desc ≠ ("Net Check").toList →
      (((earnAmountsOf line desc).length = 4 →
          earnProcessLine d line =
            dictSet (dictSet d (("Earnings ").toList ++ desc)
                ((earnAmountsOf line desc).getD 2 []))
              ((("Earnings ").toList ++ desc) ++ (" YTD").toList)
              ((earnAmountsOf line desc).getD 3 [])) ∧
        ((earnAmountsOf line desc).length = 3 →
          earnProcessLine d line =
            dictSet (dictSet d (("Earnings ").toList ++ desc)
                ((earnAmountsOf line desc).getD 1 []))
              ((("Earnings ").toList ++ desc) ++ (" YTD").toList)
              ((earnAmountsOf line desc).getD 2 [])) ∧
        ((earnAmountsOf line desc).length = 2 →
          earnProcessLine d line =
            dictSet (dictSet d (("Earnings ").toList ++ desc)
                ((earnAmountsOf line desc).getD 0 []))
              ((("Earnings ").toList ++ desc) ++ (" YTD").toList)
              ((earnAmountsOf line desc).getD 1 [])) ∧
        ((earnAmountsOf line desc).length = 1 →
          earnProcessLine d line =
            dictSet d ((("Earnings ").toList ++ desc) ++ (" YTD").toList)
              ((earnAmountsOf line desc).getD 0 []))) := by
  intro d line desc hdesc hnp hnc
  have hb : (desc == ("Net Pay").toList || desc == ("Net Check").toList) = false := by
    simp only [Bool.or_eq_false_iff, beq_eq_false_iff_ne]
    exact ⟨hnp, hnc⟩
  have hstep : earnProcessLine d line = earnDispatch d desc (earnAmountsOf line desc) := by
    unfold earnProcessLine
    rw [hdesc]
    simp only [hb, Bool.false_eq_true, if_false]
  refine ⟨fun hlen => ?_, fun hlen => ?_, fun hlen => ?_, fun hlen => ?_⟩ <;>
    rw [hstep] <;> simp [earnDispatch, hlen]

theorem ssSingle_positive_ytd :
    ∀ (line : PyStr) (b : Bool) (p : Nat) (a : PyStr),
      extract_amounts_from_line line (("Social Security Tax").toList) = (some a, none) →
      a ≠ [] →
      a.head? ≠ some '-' →
      processDedMatch line ([], b) (p, ("Social Security Tax").toList) =
        ([((("Deductions Social Security Tax YTD").toList), a)], b) := by
  intro line b p a hx hne hhead
  unfold processDedMatch
  simp only [hx]
  have h1 : truthyOpt (some a) = true := by simp [truthyOpt, hne]
  have h2 : (a.head? == some '-') = false := by simp [hhead]
  have h3 : benefit_ytd_names.contains (("Social Security Tax").toList) = false := by decide
  have h4 : always_ytd_names.contains (("Social Security Tax").toList) = false := by decide
  simp [h1, h2, h3, h4, hne, truthyOpt, dictHasKey, dictFind, dictSet, dkey, dkeyY]
  intro hmem
  exact absurd hmem (by decide)

theorem ytdStep_decrease_diag :
    ∀ (f : PyStr) (ds : List YtdDiag) (l q : Dec) (r : Record),
      dictGetD r f [] ≠ [] →
      pyStrip (dictGetD r f []) ≠ [] →
      parseDec ((dictGetD r f []).filter (fun c => !(c == ','))) = some q →
      decLT q (decSub l oneCent) = true →
      ytdStep f (some l, ds) r = ((some q, ds ++ [(f, l, q)]), r) := by
  intro f ds l q r hc hs hp hlt
  simp only [ytdStep]
  rw [if_pos (by simp [hc, hs]), hp]
  simp [hlt]

theorem ytdStep_forward_fill :
    ∀ (f : PyStr) (ds : List YtdDiag) (l : Dec) (r : Record),
      pyStrip (dictGetD r f []) = [] →
      ytdStep f (some l, ds) r = ((some l, ds), dictSet r f (pyFloatStr l)) := by
  intro f ds l r hs
  simp only [ytdStep]
  rw [if_neg (by simp [hs])]

/-! ## Claim theorems -/

set_option maxRecDepth 16000

/-- C1 (corrected): the amended rendering round trip. For every integer n
with at least one dollar digit (100 ≤ n < 10^9), lexing the spec's rendering
of n with the first-amount extraction of extract_amounts_from_line yields
exactly n/100 with two decimal places, and the minus-prefixed rendering
yields the negated result. For 10 ≤ n ≤ 99 the lexer instead yields the
fractional form with no integer digit (the original claim fails there). -/
theorem claim1_render_lex_amended :
    ∀ n : Nat, 100 ≤ n → n < 1000000000 →
      (extractAmountsTok (renderTokens n)).1 = some (fmt2 n) ∧
      (extractAmountsTok (negTokens (renderTokens n))).1 = some ('-' :: fmt2 n) :=
  render_lex_pos_neg

/-- C1 witness: the amended theorem at the concrete input 123456789. -/
theorem claim1_render_lex_at_input :
    100 ≤ 123456789 ∧
      (extractAmountsTok (renderTokens 123456789)).1 = some (fmt2 123456789) ∧
      (extractAmountsTok (negTokens (renderTokens 123456789))).1 =
        some ('-' :: fmt2 123456789) :=
  ⟨by decide, claim1_render_lex_amended 123456789 (by decide) (by decide)⟩

/-- C1 counterexample: at n = 50 the rendering is the bare token 50, and the
lexer yields .50, not 50/100 formatted with two decimal places (0.50). -/
theorem claim1_two_digit_refutes :
    (extractAmountsTok (renderTokens 50)).1 = some ((".50").toList) ∧
      (extractAmountsTok (renderTokens 50)).1 ≠ some (fmt2 50) := by
  constructor
  · decide
  · decide

/-- C2: in the earnings section, fields are assigned by amount count (4
amounts give the 3rd as current and the 4th as YTD; 3 give the 2nd and 3rd;
2 give both; 1 gives YTD only), and the line Regular 5000 00 80 00
5 000 00 5 000 00 yields Earnings Regular = 5000.00 and
Earnings Regular YTD = 5000.00. -/
theorem claim2_earnings_count_dispatch :
    (∀ (d : Record) (line desc : PyStr),
        earnDescOf line = some desc →
        desc ≠ ("Net Pay").toList →
        desc ≠ ("Net Check").toList →
        (((earnAmountsOf line desc).length = 4 →
            earnProcessLine d line =
              dictSet (dictSet d (("Earnings ").toList ++ desc)
                  ((earnAmountsOf line desc).getD 2 []))
                ((("Earnings ").toList ++ desc) ++ (" YTD").toList)
                ((earnAmountsOf line desc).getD 3 [])) ∧
          ((earnAmountsOf line desc).length = 3 →
            earnProcessLine d line =
              dictSet (dictSet d (("Earnings ").toList ++ desc)
                  ((earnAmountsOf line desc).getD 1 []))
                ((("Earnings ").toList ++ desc) ++ (" YTD").toList)
                ((earnAmountsOf line desc).getD 2 [])) ∧
          ((earnAmountsOf line desc).length = 2 →
            earnProcessLine d line =
              dictSet (dictSet d (("Earnings ").toList ++ desc)
                  ((earnAmountsOf line desc).getD 0 []))
                ((("Earnings ").toList ++ desc) ++ (" YTD").toList)
                ((earnAmountsOf line desc).getD 1 [])) ∧
          ((earnAmountsOf line desc).length = 1 →
            earnProcessLine d line =
              dictSet d ((("Earnings ").toList ++ desc) ++ (" YTD").toList)
                ((earnAmountsOf line desc).getD 0 [])))) ∧
      parse_earnings_section
          (("rate hours this period\nRegular 5000 00 80 00 5 000 00 5 000 00").toList) =
        [(("Earnings Regular").toList, ("5000.00").toList),
         (("Earnings Regular YTD").toList, ("5000.00").toList)] :=
  ⟨earnDispatch_by_count, by decide⟩

/-- C3 (code bug): on the deductions line Ad&D Spouse -10 00 20 00 the
shorter prefix label Ad&D does fire: the matches are sorted by position with
the name as tie break, which processes Ad&D before Ad&D Spouse, against the
ordered-label-list comment in the source. -/
theorem claim3_shorter_label_fires :
    parse_deductions_section (("Ad&D Spouse -10 00 20 00").toList) =
      [(("Deductions Ad&D").toList, ("-10.00").toList),
       (("Deductions Ad&D YTD").toList, ("20.00").toList),
       (("Deductions Ad&D Spouse").toList, ("-10.00").toList),
       (("Deductions Ad&D Spouse YTD").toList, ("20.00").toList)] := by
  decide

/-- C4 (corrected): the YTD validator walks each record in order; a present
value that parses and has decreased by more than 0.01 emits a diagnostic on
the side channel and leaves the stored value unchanged; an absent or blank
value is forward-filled from the last value. The forward-filled string is
the decimal form of the float, so for the two-record batch where
Deductions Medicare Tax YTD is 100.00 then absent, the second record gets
100.0 (not 100.00). -/
theorem claim4_ytd_validator_amended :
    (∀ (f : PyStr) (ds : List YtdDiag) (l q : Dec) (r : Record),
        dictGetD r f [] ≠ [] →
        pyStrip (dictGetD r f []) ≠ [] →
        parseDec ((dictGetD r f []).filter (fun c => !(c == ','))) = some q →
        decLT q (decSub l oneCent) = true →
        ytdStep f (some l, ds) r = ((some q, ds ++ [(f, l, q)]), r)) ∧
      (∀ (f : PyStr) (ds : List YtdDiag) (l : Dec) (r : Record),
        pyStrip (dictGetD r f []) = [] →
        ytdStep f (some l, ds) r = ((some l, ds), dictSet r f (pyFloatStr l))) ∧
      (validate_and_fix_ytd_values
          [[(("Deductions Medicare Tax YTD").toList, ("100.00").toList)], []]).2 =
        [[(("Deductions Medicare Tax YTD").toList, ("100.00").toList)],
         [(("Deductions Medicare Tax YTD").toList, ("100.0").toList)]] :=
  ⟨ytdStep_decrease_diag, ytdStep_forward_fill, by decide⟩

/-- C4 counterexample: after validation the forward-filled second record
holds 100.0, not 100.00 as the claim states. -/
theorem claim4_forward_fill_float_str :
    dictFind
        (((validate_and_fix_ytd_values
              [[(("Deductions Medicare Tax YTD").toList, ("100.00").toList)], []]).2).getD 1 [])
        (("Deductions Medicare Tax YTD").toList) = some (("100.0").toList) ∧
      (("100.0").toList : PyStr) ≠ ("100.00").toList := by
  constructor
  · decide
  · decide

/-- C5 (corrected): every amount the lexer produces matches the loose
pattern with an optional minus sign, an optional run of digits, a dot and
exactly two digits; runs of two or more tokens always carry at least one
integer digit and match the canonical pattern; but the validator's
forward-fill writes float-formatted strings such as 100.0 that do not. -/
theorem claim5_amount_pattern_amended :
    (∀ (ts : List PyStr) (a : PyStr) (k : Nat) (rem : List PyStr),
        tryShapes ts = some (a, k, rem) →
        matchesLoose a = true ∧ (2 ≤ k → matchesCanon a = true)) ∧
      (∀ (line desc a : PyStr),
        extract_first_amount_from_line line desc = some a → matchesLoose a = true) ∧
      ((validate_and_fix_ytd_values
            [[(("Deductions Medicare Tax YTD").toList, ("100.00").toList)], []]).2.getD 1 [] =
          [(("Deductions Medicare Tax YTD").toList, ("100.0").toList)] ∧
        matchesCanon (("100.0").toList) = false) :=
  ⟨fun _ _ _ _ h => tryShapes_pattern h, fun _ _ _ h => extract_first_pattern h,
    by decide, by decide⟩

/-- C5 counterexample: a record value after the validator's forward-fill
pass that fails the canonical amount pattern. -/
theorem claim5_forward_fill_breaks_pattern :
    dictFind
        (((validate_and_fix_ytd_values
              [[(("Deductions Medicare Tax YTD").toList, ("100.00").toList)], []]).2).getD 1 [])
        (("Deductions Medicare Tax YTD").toList) = some (("100.0").toList) ∧
      matchesCanon (("100.0").toList) = false := by
  constructor
  · decide
  · decide

/-- C6: a Social Security Tax deduction match whose extraction finds exactly
one positive amount emits it as Deductions Social Security Tax YTD and no
current-period field; in particular the line Social Security Tax 9 932 40
yields only the YTD field 9932.40. -/
theorem claim6_social_security_single_positive :
    (∀ (line : PyStr) (b : Bool) (p : Nat) (a : PyStr),
        extract_amounts_from_line line (("Social Security Tax").toList) = (some a, none) →
        a ≠ [] →
        a.head? ≠ some '-' →
        processDedMatch line ([], b) (p, ("Social Security Tax").toList) =
          ([(("Deductions Social Security Tax YTD").toList, a)], b)) ∧
      parse_deductions_section (("Social Security Tax 9 932 40").toList) =
        [(("Deductions Social Security Tax YTD").toList, ("9932.40").toList)] :=
  ⟨ssSingle_positive_ytd, by decide⟩

/-- C7: the line Espp 3/15-9/14 2 500 00 contributes no deduction match at
all (the Espp occurrence is followed by a date fragment and is skipped), the
deductions parser emits nothing, and the Other-Benefits parser matches the
Espp glob and emits Other Benefits Espp 3/15-9/14 = 2500.00. -/
theorem claim7_espp_date_window :
    collectDedMatches (("Espp 3/15-9/14 2 500 00").toList) = [] ∧
      parse_deductions_section (("Espp 3/15-9/14 2 500 00").toList) = [] ∧
      parse_other_benefits_section (("Espp 3/15-9/14 2 500 00").toList) =
        [(("Other Benefits Espp 3/15-9/14").toList, ("2500.00").toList)] := by
  refine ⟨by decide, by decide, by decide⟩

/-- C8 (corrected): extract_first_amount_from_line attempts only the 3-, 2-
and 1-token shapes in decreasing length, committing to the first that
matches; the 4-token shape is not attempted, so the token run 1 040 968 50
yields no amount at all. -/
theorem claim8_first_amount_three_shapes :
    extract_first_amount_from_line (("1 040 968 50").toList) [] = none ∧
      extract_first_amount_from_line (("1 234 56").toList) [] = some (("1234.56").toList) ∧
      extract_first_amount_from_line (("123 45").toList) [] = some (("123.45").toList) ∧
      extractFirstTok [("12").toList, ("34").toList] = some (("12.34").toList) := by
  refine ⟨by decide, by decide, by decide, by decide⟩

/-- C8 counterexample: the 4-token run of a value of at least 1,000,000 is
not recognized by extract_first_amount_from_line. -/
theorem claim8_four_token_run_unrecognized :
    extract_first_amount_from_line (("1 040 968 50").toList) [] ≠
      some (("1040968.50").toList) := by
  decide

/-- C9 (corrected): lexing 1 234 56 78 90 extracts the amounts 1234.56 and
78.90 as the claim states, but the first match consumes three tokens (end
index 3), not four: the 4-token shape does not match this opening, and at
each position the longer shape is attempted first (a two-token run such as
12 34 lexes as 12.34, not as the one-token amount .12). -/
theorem claim9_greedy_three_then_two :
    extract_amounts_from_line (("1 234 56 78 90").toList) [] =
        (some (("1234.56").toList), some (("78.90").toList)) ∧
      scanFirst (pySplit (("1 234 56 78 90").toList)) =
        some ((("1234.56").toList), 3, [("78").toList, ("90").toList]) ∧
      extractAmountsTok [("12").toList, ("34").toList] = (some (("12.34").toList), none) := by
  refine ⟨by decide, by decide, by decide⟩

/-- C9 counterexample: the first amount's consumed-token end index on the
sequence 1 234 56 78 90 is 3, not the 4 the claim asserts. -/
theorem claim9_first_match_consumes_three :
    scanFirst (pySplit (("1 234 56 78 90").toList)) =
        some ((("1234.56").toList), 3, [("78").toList, ("90").toList]) ∧
      (3 : Nat) ≠ 4 := by
  exact ⟨by decide, by decide⟩

/-- C10: the YTD validator returns the same records in the same order,
adding or removing none, and every field whose name does not end in the YTD
suffix keeps exactly its value. -/
theorem claim10_validator_frame :
    ∀ (rs : List Record) (i : Nat) (k : PyStr),
      endsWithSuf ((" YTD").toList) k = false →
      ((validate_and_fix_ytd_values rs).2).length = rs.length ∧
        dictFind (((validate_and_fix_ytd_values rs).2).getD i []) k =
          dictFind (rs.getD i []) k := by
  intro rs i k hk
  have h := fold_validate_frame hk (collectYtdFields rs)
    (fun f hf => collectYtdFields_end hf) ([], rs)
  unfold validate_and_fix_ytd_values
  exact ⟨h.1, h.2 i⟩

/-- C10 witness: the frame property at a concrete one-record batch and the
non-YTD key Pay Date. -/
theorem claim10_validator_frame_at_input :
    endsWithSuf ((" YTD").toList) (("Pay Date").toList) = false ∧
      ((validate_and_fix_ytd_values
            [[(("Pay Date").toList, ("01/19/2024").toList)]]).2).length = 1 ∧
        dictFind (((validate_and_fix_ytd_values
              [[(("Pay Date").toList, ("01/19/2024").toList)]]).2).getD 0 [])
            (("Pay Date").toList) =
          dictFind (([[(("Pay Date").toList, ("01/19/2024").toList)]].getD 0 []))
            (("Pay Date").toList) :=
  ⟨by decide,
    claim10_validator_frame [[(("Pay Date").toList, ("01/19/2024").toList)]] 0
      (("Pay Date").toList) (by decide)⟩

end AdpExtract
